import Mathlib

/-!
Shallow embedding of the path-symex state-read core
(src/src/path-symex/path_symex_state_read.cpp together with the
variable-numbering header var_map.h) and verification of its
specification claims.

Expressions are modelled as CBMC models them: a node identifier
(carrying the node-specific attributes such as a symbol's identifier or
a member's component name), a list of operand sub-expressions, and a
semantic type.  Machine state (the variable registry `var_mapt` and the
per-path variable states) is passed explicitly; fallible code returns
`Except String`, with C++ `throw` of a string literal mapped to
`Except.error` of the same string, a failed `assert` mapped to an
`Except.error` starting with "assert:", and `optionalt::value()` on an
empty optional mapped to `Except.error "optional has no value"`.
The mutually recursive cluster of functions is made total with an
explicit fuel argument; running out of fuel yields the distinguished
error "out of fuel", which no theorem ever treats as a behaviour of the
program.

External collaborators that the spec explicitly excludes from the core
(the expression simplifier, the zero initializer, the pointer
resolution oracle `symex_dereference`, the address evaluator, and the
declaration-context classifier used by variable numbering) are fields
of an explicitly passed configuration record.  The type/alias resolver
("namespace") is modelled as already applied: types are embedded
structurally, so `ns.follow` is the identity, written explicitly at
every call site that the source has.
-/

namespace PathSymex

/-- Size of an array/vector type: a constant, the distinguished
unbounded marker (`ID_infinity`), or a non-constant symbolic size. -/
inductive ArraySizet where
  | const (n : Nat)
  | infinity
  | var (tag : String)
deriving DecidableEq, Repr

/-- `exprt.is_constant()` on an array/vector size expression. -/
def ArraySizet.is_constant : ArraySizet → Bool
  | .const _ => true
  | _ => false

/-- Variable kinds from `var_mapt::var_infot`. -/
inductive VarKindt where
  | SHARED
  | THREAD_LOCAL
  | PROCEDURE_LOCAL
deriving DecidableEq, Repr

/-- Semantic types, embedded structurally (tags already resolved). -/
inductive Typet where
  | structT (components : List (String × Typet))
  | unionT (components : List (String × Typet))
  | arrayT (subtype : Typet) (size : ArraySizet)
  | vectorT (subtype : Typet) (size : ArraySizet)
  | code
  | mathematical_function
  | boolT
  | signedbv (width : Nat)
  | unsignedbv (width : Nat)
  | empty
  | otherT (name : String)

/-- Node identifiers with their node-specific attributes, mirroring the
`irep` ids dispatched on by the source. -/
inductive ExprIdt where
  | symbol (identifier : String) (ssa : Bool)
  | member (component : String)
  | indexE
  | constant (value : Int)
  | structE
  | arrayE
  | vectorE
  | ifE
  | condE
  | equalE
  | dereference
  | integer_dereference
  | dereference_failure
  | address_of
  | side_effect (statement : String)
  | byte_extract_little_endian
  | byte_extract_big_endian
  | nilE
  | otherE (name : String)
deriving DecidableEq, Repr

/-- An expression: id, operands, type. -/
inductive Exprt where
  | mk (eid : ExprIdt) (operands : List Exprt) (type : Typet)

instance : Inhabited Exprt := ⟨.mk .nilE [] .empty⟩

def Exprt.eid : Exprt → ExprIdt
  | .mk i _ _ => i

def Exprt.operands : Exprt → List Exprt
  | .mk _ ops _ => ops

def Exprt.type : Exprt → Typet
  | .mk _ _ t => t

/-- Rebuild a node with new operands (used by the structural recursion
of `dereference_rec` and `instantiate_rec`). -/
def Exprt.withOperands : Exprt → List Exprt → Exprt
  | .mk i _ t, ops => .mk i ops t

@[simp] theorem Exprt.eid_mk (i : ExprIdt) (ops : List Exprt) (t : Typet) :
    (Exprt.mk i ops t).eid = i := rfl

@[simp] theorem Exprt.operands_mk (i : ExprIdt) (ops : List Exprt) (t : Typet) :
    (Exprt.mk i ops t).operands = ops := rfl

@[simp] theorem Exprt.type_mk (i : ExprIdt) (ops : List Exprt) (t : Typet) :
    (Exprt.mk i ops t).type = t := rfl

@[simp] theorem Exprt.withOperands_mk (i : ExprIdt) (ops ops' : List Exprt)
    (t : Typet) : (Exprt.mk i ops t).withOperands ops' = .mk i ops' t := rfl

def Exprt.has_operands (e : Exprt) : Bool := !e.operands.isEmpty

/-- `exprt.is_constant()`. -/
def Exprt.is_constant (e : Exprt) : Bool :=
  match e.eid with
  | .constant _ => true
  | _ => false

/-- `get_bool(ID_C_SSA_symbol)`: true only on symbols carrying the SSA
flag. -/
def Exprt.is_ssa_symbol (e : Exprt) : Bool :=
  match e.eid with
  | .symbol _ ssa => ssa
  | _ => false

/-- `type.id()==ID_struct`. -/
def Typet.is_struct : Typet → Bool
  | .structT _ => true
  | _ => false

/-- `type.id()==ID_union`. -/
def Typet.is_union : Typet → Bool
  | .unionT _ => true
  | _ => false

/-- `type.id()==ID_code`. -/
def Typet.is_code : Typet → Bool
  | .code => true
  | _ => false

/-- `type.id()==ID_mathematical_function`. -/
def Typet.is_math_function : Typet → Bool
  | .mathematical_function => true
  | _ => false

/-- The type/alias resolver is modelled as already applied; every
`ns.follow(...)` call site in the source is kept as an explicit
`follow`. -/
def follow (t : Typet) : Typet := t

/-- `numeric_cast<std::size_t>` on an array/vector size. -/
def numeric_cast_size : ArraySizet → Option Nat
  | .const n => some n
  | _ => none

/-- `to_integer` on a vector size (false result of the C++ function
means success; modelled as `some`). -/
def to_integer_size : ArraySizet → Option Nat
  | .const n => some n
  | _ => none

/-- `numeric_cast<mp_integer>` on an expression: defined exactly on
constants. -/
def numeric_cast_mp (e : Exprt) : Option Int :=
  match e.eid with
  | .constant v => some v
  | _ => none

/-- Modelled from the spec (the implementation of
`var_mapt::is_unbounded_array` lives in var_map.cpp, which is not part
of the excerpt; only its declaration is, in var_map.h): an array type
is unbounded when its declared size is the distinguished unbounded
marker rather than a statically evaluable constant.  On a non-array
type the predicate is false. -/
def is_unbounded_array : Typet → Bool
  | .arrayT _ .infinity => true
  | _ => false

/-- `std::to_string` on an unsigned counter, modelled by the standard
decimal rendering. -/
def natToString (n : Nat) : String := Nat.repr n

/-- `integer2string` on a (signed) integer. -/
def intToString : Int → String
  | .ofNat n => natToString n
  | .negSucc n => "-" ++ natToString (n + 1)

/-- The external collaborators of the core, passed explicitly: the
expression simplifier, the default-value ("zero") synthesizer, the
pointer-resolution oracle, the address evaluator, and the
declaring-context classifier consumed by variable numbering. -/
structure Configt where
  simplify : Exprt → Exprt
  zero_initializer : Typet → Option Exprt
  symex_dereference : Exprt → Exprt
  evaluate_address_of : Exprt → Exprt
  classify : String → VarKindt

/-- `var_mapt::var_infot` from var_map.h. -/
structure VarInfot where
  kind : VarKindt
  number : Nat
  full_identifier : String
  symbol : String
  suffix : String
  original : Exprt
  ssa_counter : Nat

/-- `var_infot::increment_ssa_counter` from var_map.h: `++ssa_counter`. -/
def VarInfot.increment_ssa_counter (v : VarInfot) : VarInfot :=
  { v with ssa_counter := v.ssa_counter + 1 }

/-- Modelled from the spec (the implementation of
`var_infot::ssa_identifier` lives in var_map.cpp, not in the excerpt):
the SSA name is minted from the identity and the current version
number, `full_identifier` decorated with the version counter. -/
def VarInfot.ssa_identifier (v : VarInfot) : String :=
  v.full_identifier ++ "#" ++ natToString v.ssa_counter

/-- Modelled from the spec (the implementation of
`var_infot::ssa_symbol` lives in var_map.cpp, not in the excerpt): a
fresh SSA-tagged symbol expression named by `ssa_identifier`, of the
type of the original access expression. -/
def VarInfot.ssa_symbol (v : VarInfot) : Exprt :=
  .mk (.symbol v.ssa_identifier true) [] v.original.type

/-- `var_mapt` from var_map.h: the run-scoped registry. -/
structure VarMapt where
  id_map : List (String × VarInfot)
  nondet_count : Nat
  dynamic_count : Nat
  new_symbols : List (String × Typet)

/-- Association-list lookup (`std::map::find`). -/
def assoc_find {κ α : Type} [DecidableEq κ] : List (κ × α) → κ → Option α
  | [], _ => none
  | (k, v) :: rest, key => if k = key then some v else assoc_find rest key

/-- Association-list update-or-insert. -/
def assoc_set {κ α : Type} [DecidableEq κ] : List (κ × α) → κ → α → List (κ × α)
  | [], k, v => [(k, v)]
  | (k', v') :: rest, k, v =>
      if k' = k then (k, v) :: rest else (k', v') :: assoc_set rest k v

/-- Modelled from the spec (the implementation of
`var_mapt::operator()(symbol, suffix, original)` lives in var_map.cpp,
not in the excerpt): allocate-or-fetch the `var_infot` keyed by
`full_identifier = symbol + suffix`; on first sight a globally unique
sequential number is assigned, the kind is classified from the
declaring context, and the version counter starts at zero. -/
def var_map_apply (cfg : Configt) (vm : VarMapt) (symbol suffix : String)
    (original : Exprt) : VarInfot × VarMapt :=
  let full_identifier := symbol ++ suffix
  match assoc_find vm.id_map full_identifier with
  | some var_info => (var_info, vm)
  | none =>
      let var_info : VarInfot :=
        { kind := cfg.classify symbol
          number := vm.id_map.length
          full_identifier := full_identifier
          symbol := symbol
          suffix := suffix
          original := original
          ssa_counter := 0 }
      (var_info, { vm with id_map := vm.id_map ++ [(full_identifier, var_info)] })

/-- Modelled from the spec: the per-path `var_statet` (declared in
path_symex_state.h, not part of the excerpt): an optional cached
concrete value and an optional SSA symbol for the current version. -/
structure VarStatet where
  value : Option Exprt
  ssa_symbol : Option Exprt

/-- The state threaded through the core: the shared registry and the
current path's per-variable states. -/
structure Statet where
  var_map : VarMapt
  var_states : List (Nat × VarStatet)

/-- Modelled from the spec: `get_var_state` of path_symex_state.h (not
in the excerpt) yields the path's state for a `var_infot`, creating an
untouched one (no value, no SSA symbol) on first access. -/
def get_var_state (s : Statet) (number : Nat) : VarStatet :=
  (assoc_find s.var_states number).getD ⟨none, none⟩

def set_var_state (s : Statet) (number : Nat) (vs : VarStatet) : Statet :=
  { s with var_states := assoc_set s.var_states number vs }

/-- `optionalt::value()`: aborts on an empty optional. -/
def opt_value {α : Type} : Option α → Except String α
  | some v => .ok v
  | none => .error "optional has no value"

/-- The walking loop of `is_symbol_member_index`: symbols are accepted
unless already SSA; member accesses are followed only through struct
compounds (unions deliberately rejected); index accesses are followed
into the array operand; anything else is rejected.  A member node with
no operand would fail `to_member_expr`'s arity check and is rejected. -/
def ismi_loop : Exprt → Bool
  | .mk (.symbol _ ssa) _ _ => !ssa
  | .mk (.member _) (op :: _) _ =>
      if (follow op.type).is_struct then ismi_loop op else false
  | .mk .indexE (arr :: _) _ => ismi_loop arr
  | _ => false

/-- `path_symex_statet::is_symbol_member_index`. -/
def is_symbol_member_index (src : Exprt) : Bool :=
  let final_type := src.type
  -- don't touch function symbols
  if final_type.is_code || final_type.is_math_function then false
  else ismi_loop src

/-- `path_symex_statet::array_index_as_string`: simplify, then render a
constant index as `[k]` and a symbolic one as the collapsing marker. -/
def array_index_as_string (cfg : Configt) (src : Exprt) : String :=
  let tmp := cfg.simplify src
  match numeric_cast_mp tmp with
  | some index_int => "[" ++ intToString index_int ++ "]"
  | none => "[*]"

/-- The guard/value case list pushed by the `add_case` loop of
`array_theory`: for each concrete index `i`, the guard `index == i`
followed by the element `array[i]`. -/
def cond_add_cases (idx arr : Exprt) (subtype : Typet) : List Nat → List Exprt
  | [] => []
  | i :: rest =>
      let index : Exprt := .mk (.constant (Int.ofNat i)) [] idx.type
      .mk .equalE [idx, index] .boolT ::
        .mk .indexE [arr, index] subtype :: cond_add_cases idx arr subtype rest

/-- The integer type of the freshly built index constants in
`expand_structs_and_arrays` (`from_integer(i, size().type())`); sizes
carry a fixed integer type in the modelled goto programs. -/
def size_type : Typet := .signedbv 64

section Core

variable (cfg : Configt)

mutual

/-- `path_symex_statet::read`: dereferencing (propagation forced on),
then rewriting to SSA, then the external simplifier. -/
def read : Nat → Statet → Exprt → Bool → Except String (Exprt × Statet)
  | 0, _, _, _ => .error "out of fuel"
  | fuel+1, s, src, propagate => do
      -- we force propagation for dereferencing
      let (tmp3, s) ← dereference_rec fuel s src true
      let (tmp4, s) ← instantiate_rec fuel s tmp3 propagate
      let tmp5 := cfg.simplify tmp4
      pure (tmp5, s)
termination_by structural fuel _ _ _ => fuel

/-- `path_symex_statet::dereference_rec`: removes `Dereference` via the
full read of the pointer followed by the external oracle, removes
`AddressOf` via the external address evaluator, and otherwise recurses
structurally. -/
def dereference_rec : Nat → Statet → Exprt → Bool → Except String (Exprt × Statet)
  | 0, _, _, _ => .error "out of fuel"
  | fuel+1, s, src, propagate =>
      match src.eid with
      | .dereference => do
          -- read the address to propagate the pointers
          let (address, s) ← read fuel s (src.operands.getD 0 default) propagate
          -- now hand over to dereference
          let address_dereferenced := cfg.symex_dereference address
          pure (address_dereferenced, s)
      | .address_of =>
          pure (cfg.evaluate_address_of src, s)
      | _ =>
          if !src.has_operands then pure (src, s)
          else do
            -- recursive calls on structure of src
            let (ops, s) ← dereference_ops fuel s src.operands propagate
            pure (src.withOperands ops, s)
termination_by structural fuel _ _ _ => fuel

/-- The operand loop of `dereference_rec`. -/
def dereference_ops : Nat → Statet → List Exprt → Bool →
    Except String (List Exprt × Statet)
  | 0, _, _, _ => .error "out of fuel"
  | _+1, s, [], _ => pure ([], s)
  | fuel+1, s, op :: rest, propagate => do
      let (op', s) ← dereference_rec fuel s op propagate
      let (rest', s) ← dereference_ops fuel s rest propagate
      pure (op' :: rest', s)
termination_by structural fuel _ _ _ => fuel

/-- `path_symex_statet::instantiate_rec`: the driver.  The explicit
stack of the source visits a node and either replaces it (without
re-descending into the replacement) or pushes its operands. -/
def instantiate_rec : Nat → Statet → Exprt → Bool → Except String (Exprt × Statet)
  | 0, _, _, _ => .error "out of fuel"
  | fuel+1, s, src, propagate => do
      let (node_result, s) ← instantiate_node fuel s src propagate
      match node_result with
      | some r => pure (r, s)
      | none =>
          if src.has_operands then do
            let (ops, s) ← instantiate_ops fuel s src.operands propagate
            pure (src.withOperands ops, s)
          else
            pure (src, s)
termination_by structural fuel _ _ _ => fuel

/-- The operand traversal of `instantiate_rec`: the stack pops the
operands last-to-first, so the last operand's state effects happen
first. -/
def instantiate_ops : Nat → Statet → List Exprt → Bool →
    Except String (List Exprt × Statet)
  | 0, _, _, _ => .error "out of fuel"
  | _+1, s, [], _ => pure ([], s)
  | fuel+1, s, op :: rest, propagate => do
      let (rest', s) ← instantiate_ops fuel s rest propagate
      let (op', s) ← instantiate_rec fuel s op propagate
      pure (op' :: rest', s)
termination_by structural fuel _ _ _ => fuel

/-- `path_symex_statet::instantiate_node`: the node-local rule set,
first match wins; `none` means no rule applied and the driver descends
into the operands. -/
def instantiate_node : Nat → Statet → Exprt → Bool →
    Except String (Option Exprt × Statet)
  | 0, _, _, _ => .error "out of fuel"
  | fuel+1, s, src, propagate =>
      -- check whether this is a symbol(.member|[index])*
      if is_symbol_member_index src then do
        let (tmp_symbol_member_index, s) ←
          read_symbol_member_index fuel s src propagate
        match tmp_symbol_member_index with
        | some v => pure (some v, s) -- yes!
        | none => .error "assert: tmp_symbol_member_index.has_value()"
      else
        match src.eid with
        | .address_of =>
            -- these have already been flattened out by dereference_rec
            pure (some src, s)
        | .side_effect statement =>
            if statement = "nondet" then
              let id := "symex::nondet" ++ natToString s.var_map.nondet_count
              let s : Statet :=
                { s with var_map :=
                    { s.var_map with
                        nondet_count := s.var_map.nondet_count + 1
                        new_symbols := s.var_map.new_symbols ++ [(id, src.type)] } }
              let nondet_symbol : Exprt := .mk (.symbol id false) [] src.type
              read_symbol_member_index fuel s nondet_symbol false
            else
              .error ("instantiate_rec: unexpected side effect " ++ statement)
        | .dereference =>
            -- dereferencet has run already, so we should only be left
            -- with integer addresses; no rule fires here
            pure (none, s)
        | .integer_dereference =>
            -- dereferencet produces these for stuff like integer
            -- addresses cast to pointers
            let id := "symex::deref" ++ natToString s.var_map.nondet_count
            let s : Statet :=
              { s with var_map :=
                  { s.var_map with
                      nondet_count := s.var_map.nondet_count + 1
                      new_symbols := s.var_map.new_symbols ++ [(id, src.type)] } }
            let nondet_symbol : Exprt := .mk (.symbol id false) [] src.type
            pure (some nondet_symbol, s)
        | .member _ =>
            let compound_type := follow (src.operands.getD 0 default).type
            if compound_type.is_struct then
              pure (none, s) -- do nothing
            else if compound_type.is_union then
              -- should already have been rewritten to byte_extract
              .error "unexpected union member"
            else
              .error "member expects struct or union type"
        | .byte_extract_little_endian => pure (none, s)
        | .byte_extract_big_endian => pure (none, s)
        | .symbol _ ssa =>
            -- must be SSA already, or code, or a function
            if src.type.is_code || src.type.is_math_function || ssa then
              pure (none, s)
            else
              .error "assert: symbol must be SSA"
        | .dereference_failure =>
            let id := "symex::deref" ++ natToString s.var_map.nondet_count
            let s : Statet :=
              { s with var_map :=
                  { s.var_map with
                      nondet_count := s.var_map.nondet_count + 1
                      new_symbols := s.var_map.new_symbols ++ [(id, src.type)] } }
            let nondet_symbol : Exprt := .mk (.symbol id false) [] src.type
            pure (some nondet_symbol, s)
        | _ => pure (none, s) -- no change
termination_by structural fuel _ _ _ => fuel

/-- `path_symex_statet::expand_structs_and_arrays`: type-directed
decomposition of composite accesses into constructor expressions. -/
def expand_structs_and_arrays : Nat → Exprt → Except String Exprt
  | 0, _ => .error "out of fuel"
  | fuel+1, src =>
      let src_type := follow src.type
      match src_type with
      | .structT components => -- src is a struct
          if src.eid = .structE then -- struct constructor?
            if src.operands.length = components.length then do
              let ops ← expand_list fuel src.operands
              pure (src.withOperands ops)
            else .error "assert: struct constructor operand count"
          else do
            let ops ← expand_members fuel src components
            pure (.mk .structE ops src.type)
      | .arrayT subtype size => -- src is an array
          if size.is_constant then
            match numeric_cast_size size with
            | none => .error "failed to convert array size"
            | some size_int => do
                let ops ← expand_elems fuel src subtype .arrayE (List.range size_int)
                pure (.mk .arrayE ops src.type)
          else
            -- TODO: variable-sized array
            pure src
      | .vectorT subtype size => -- src is a vector
          if !size.is_constant then .error "vector with non-constant size"
          else
            match to_integer_size size with
            | none => .error "failed to convert vector size"
            | some size_int => do
                let ops ← expand_elems fuel src subtype .vectorE (List.range size_int)
                pure (.mk .vectorE ops src.type)
      | _ => pure src
termination_by structural fuel _ => fuel

/-- The component loop of the struct-constructor case of
`expand_structs_and_arrays`: the pre-built children are taken and
recursively expanded. -/
def expand_list : Nat → List Exprt → Except String (List Exprt)
  | 0, _ => .error "out of fuel"
  | _+1, [] => pure []
  | fuel+1, op :: rest => do
      let op' ← expand_structs_and_arrays fuel op
      let rest' ← expand_list fuel rest
      pure (op' :: rest')
termination_by structural fuel _ => fuel

/-- The component loop of the non-constructor struct case of
`expand_structs_and_arrays`: synthesize a field access per declared
component and recurse. -/
def expand_members : Nat → Exprt → List (String × Typet) →
    Except String (List Exprt)
  | 0, _, _ => .error "out of fuel"
  | _+1, _, [] => pure []
  | fuel+1, src, (component_name, subtype) :: rest => do
      let new_src : Exprt := .mk (.member component_name) [src] subtype
      let op ← expand_structs_and_arrays fuel new_src
      let rest' ← expand_members fuel src rest
      pure (op :: rest')
termination_by structural fuel _ _ => fuel

/-- The element loop of the array/vector cases of
`expand_structs_and_arrays`: synthesize an index access per element
(simplified when the source is already a constructor of the matching
kind) and recurse. -/
def expand_elems : Nat → Exprt → Typet → ExprIdt → List Nat →
    Except String (List Exprt)
  | 0, _, _, _, _ => .error "out of fuel"
  | _+1, _, _, _, [] => pure []
  | fuel+1, src, subtype, ctor_id, i :: rest => do
      let index : Exprt := .mk (.constant (Int.ofNat i)) [] size_type
      let new_src : Exprt := .mk .indexE [src, index] subtype
      -- array/vector constructor?
      let new_src := if src.eid = ctor_id then cfg.simplify new_src else new_src
      let op ← expand_structs_and_arrays fuel new_src
      let rest' ← expand_elems fuel src subtype ctor_id rest
      pure (op :: rest')
termination_by structural fuel _ _ _ _ => fuel

/-- `path_symex_statet::array_theory`: the bounded-index
case-splitter.  Unbounded arrays and constant (post read+simplify)
indices pass through; a symbolic index into a bounded array of known
size becomes a flat conditional. -/
def array_theory : Nat → Statet → Exprt → Bool → Except String (Exprt × Statet)
  | 0, _, _, _ => .error "out of fuel"
  | fuel+1, s, src, propagate =>
      match src.eid with
      | .indexE =>
          let arr := src.operands.getD 0 default
          match arr.type with -- to_array_type(index_expr.array().type())
          | .arrayT subtype size =>
              if is_unbounded_array arr.type then
                pure (src, s)
              else do
                let idx := src.operands.getD 1 default
                let (index_tmp1, s) ← read fuel s idx propagate
                let index_tmp2 := cfg.simplify index_tmp1
                if index_tmp2.is_constant then
                  pure (src, s)
                else
                  match numeric_cast_size size with
                  | none => .error "failed to convert array size"
                  | some size_int =>
                      -- split it up using a cond_exprt: depth 1 instead
                      -- of a nesting of if_exprt
                      pure (.mk .condE
                          (cond_add_cases idx arr subtype (List.range size_int))
                          src.type, s)
          | _ => .error "to_array_type: type is not an array"
      | _ => pure (src, s)
termination_by structural fuel _ _ _ => fuel

/-- `path_symex_statet::read_symbol_member_index`: the resolver.
`none` is the "not applicable" control signal. -/
def read_symbol_member_index : Nat → Statet → Exprt → Bool →
    Except String (Option Exprt × Statet)
  | 0, _, _, _ => .error "out of fuel"
  | fuel+1, s, src, propagate =>
      let src_type := follow src.type
      -- don't touch function symbols
      if src_type.is_code || src_type.is_math_function then pure (none, s)
      -- unbounded array?
      else if src.eid = .indexE &&
          is_unbounded_array (src.operands.getD 0 default).type then do
        let arr := src.operands.getD 0 default
        let idx := src.operands.getD 1 default
        let (rec_opt, s) ← read_symbol_member_index fuel s arr propagate
        let arr' ← opt_value rec_opt
        let (idx', s) ← instantiate_rec fuel s idx propagate
        pure (some (.mk .indexE [arr', idx'] src.type), s)
      else do
        -- is this a struct/array/vector that needs to be expanded?
        let final ← expand_structs_and_arrays fuel src
        if final.eid = .structE || final.eid = .arrayE || final.eid = .vectorE then do
          let (ops, s) ← rsmi_ops fuel s final.operands propagate
          pure (some (final.withOperands ops), s)
        else do
          -- now do array theory
          let (final2, s) ← array_theory fuel s final propagate
          if final2.eid = .ifE then do
            let (r, s) ← instantiate_rec fuel s final2 propagate
            pure (some r, s)
          else if final2.eid = .condE then do
            let (r, s) ← instantiate_rec fuel s final2 propagate
            pure (some r, s)
          else do
            let (walk_result, s) ← rsmi_suffix_walk fuel s src "" propagate
            match walk_result with
            | none => pure (none, s)
            | some (identifier, suffix) =>
                let (var_info, vm) := var_map_apply cfg s.var_map identifier suffix src
                let s : Statet := { s with var_map := vm }
                -- warning in the source: the reference is not stable
                let var_state := get_var_state s var_info.number
                if propagate && var_state.value.isSome then
                  -- propagate a value
                  pure (some (var_state.value.getD default), s)
                else if var_state.ssa_symbol.isSome then
                  -- we have got an SSA symbol
                  pure (some (var_state.ssa_symbol.getD default), s)
                else
                  -- never read before, no value: produce symbolic symbol
                  let minted := var_info.ssa_symbol
                  let var_state : VarStatet := { var_state with ssa_symbol := some minted }
                  -- the ssa-ification of an unbounded size is disabled
                  -- in the source to preserve type consistency
                  if propagate then
                    -- produce zero
                    let zero_opt := cfg.zero_initializer minted.type
                    if zero_opt.isSome && propagate then
                      let var_state : VarStatet :=
                        { var_state with value := some (zero_opt.getD default) }
                      let s := set_var_state s var_info.number var_state
                      pure (some (var_state.value.getD default), s)
                    else
                      let s := set_var_state s var_info.number var_state
                      pure (some minted, s)
                  else
                    let s := set_var_state s var_info.number var_state
                    pure (some minted, s)
termination_by structural fuel _ _ _ => fuel

/-- The operand loop of the composite branch of
`read_symbol_member_index`: each child is resolved and the optional
result unwrapped unchecked. -/
def rsmi_ops : Nat → Statet → List Exprt → Bool →
    Except String (List Exprt × Statet)
  | 0, _, _, _ => .error "out of fuel"
  | _+1, s, [], _ => pure ([], s)
  | fuel+1, s, op :: rest, propagate => do
      let (rec_opt, s) ← read_symbol_member_index fuel s op propagate
      let op' ← opt_value rec_opt
      let (rest', s) ← rsmi_ops fuel s rest propagate
      pure (op' :: rest', s)
termination_by structural fuel _ _ _ => fuel

/-- The suffix-accumulating walk of `read_symbol_member_index`, from
the access leaf towards the root symbol.  Yields the root identifier
and accumulated suffix, or `none` ("not applicable") on an SSA-tagged
root, a member through a non-struct compound (unions deliberately),
or a node that is not symbol/member/index. -/
def rsmi_suffix_walk : Nat → Statet → Exprt → String → Bool →
    Except String (Option (String × String) × Statet)
  | 0, _, _, _, _ => .error "out of fuel"
  | fuel+1, s, current, suffix, propagate =>
      match current.eid with
      | .symbol identifier ssa =>
          if ssa then pure (none, s) -- SSA already
          else pure (some (identifier, suffix), s)
      | .member component =>
          let struct_op := current.operands.getD 0 default
          let compound_type := follow struct_op.type
          if compound_type.is_struct then
            -- go into next iteration
            rsmi_suffix_walk fuel s struct_op ("." ++ component ++ suffix) propagate
          else
            pure (none, s) -- includes unions, deliberately
      | .indexE => do
          let (index_tmp, s) ←
            read fuel s (current.operands.getD 1 default) propagate
          let index_string := array_index_as_string cfg index_tmp
          -- go into next iteration
          rsmi_suffix_walk fuel s (current.operands.getD 0 default)
            (index_string ++ suffix) propagate
      | _ => pure (none, s) -- not symbol, member, index
termination_by structural fuel _ _ _ _ => fuel
end

end Core

/-- A concrete instantiation of the external collaborators used to
evaluate the core on concrete inputs: identity simplifier and oracles,
a zero synthesizer defined on the integer and boolean types, and a
constant classifier. -/
def defaultConfig : Configt :=
  { simplify := fun e => e
    zero_initializer := fun t =>
      match t with
      | .signedbv _ => some (.mk (.constant 0) [] t)
      | .unsignedbv _ => some (.mk (.constant 0) [] t)
      | .boolT => some (.mk (.constant 0) [] t)
      | _ => none
    symex_dereference := fun e => e
    evaluate_address_of := fun e => e
    classify := fun _ => .SHARED }

/-- The state at the start of a run: empty registry, zeroed counters,
untouched path. -/
def initState : Statet :=
  { var_map := { id_map := [], nondet_count := 0, dynamic_count := 0, new_symbols := [] }
    var_states := [] }

/-! ### Concrete fixtures used by witnesses and counterexamples -/

/-- A variable-size array: `int a[n]` with a non-constant size. -/
def va : Exprt := .mk (.symbol "a" false) [] (.arrayT (.signedbv 32) (.var "n"))

/-- A variable-size vector with a non-constant size. -/
def vv : Exprt := .mk (.symbol "v" false) [] (.vectorT (.signedbv 32) (.var "n"))

/-! ### C1 -/

/-- Claim C1 (as stated) is false: on an expression of variable-size
vector type the Structural Decomposer does not return the input
unchanged; it fails with the fatal error "vector with non-constant
size".  (Only variable-size arrays pass through.) -/
theorem c1_counterexample :
    expand_structs_and_arrays defaultConfig 1 vv =
      .error "vector with non-constant size" ∧
    expand_structs_and_arrays defaultConfig 1 vv ≠ .ok vv :=
  ⟨rfl, fun h => Except.noConfusion h⟩

/-- Claim C1 (amended): for every expression whose resolved type is a
variable-size (non-constant-size) array, `expand_structs_and_arrays`
returns the input unchanged; for a variable-size vector it instead
fails with the fatal error "vector with non-constant size". -/
theorem c1_expand_variable_size (cfg : Configt) (fuel : Nat) (src : Exprt)
    (sub : Typet) (sz : ArraySizet) (hsz : sz.is_constant = false) :
    (follow src.type = .arrayT sub sz →
      expand_structs_and_arrays cfg (fuel+1) src = .ok src) ∧
    (follow src.type = .vectorT sub sz →
      expand_structs_and_arrays cfg (fuel+1) src =
        .error "vector with non-constant size") := by
  constructor
  · intro h
    simp [expand_structs_and_arrays, h, hsz]
    rfl
  · intro h
    simp [expand_structs_and_arrays, h, hsz]

/-- Witness for C1's amended theorem at the concrete variable-size
array `va` and vector `vv`. -/
theorem c1_witness :
    expand_structs_and_arrays defaultConfig 1 va = .ok va ∧
    expand_structs_and_arrays defaultConfig 1 vv =
      .error "vector with non-constant size" :=
  ⟨(c1_expand_variable_size defaultConfig 0 va (.signedbv 32) (.var "n") rfl).1 rfl,
   (c1_expand_variable_size defaultConfig 0 vv (.signedbv 32) (.var "n") rfl).2 rfl⟩

/-! ### C3 -/

/-- The acceptance loop rejects nodes that are not
symbol/member/index, whatever their operands and type. -/
theorem ismi_loop_other (eid : ExprIdt) (ops : List Exprt) (ty : Typet)
    (h1 : ∀ i ssa, eid ≠ .symbol i ssa) (h2 : ∀ c, eid ≠ .member c)
    (h3 : eid ≠ .indexE) :
    ismi_loop (.mk eid ops ty) = false := by
  cases eid <;> first
    | rfl
    | exact absurd rfl (h1 _ _)
    | exact absurd rfl (h2 _)
    | exact absurd rfl h3

/-- `is_symbol_member_index` rejects nodes that are not
symbol/member/index. -/
theorem is_symbol_member_index_other (eid : ExprIdt) (ops : List Exprt)
    (ty : Typet)
    (h1 : ∀ i ssa, eid ≠ .symbol i ssa) (h2 : ∀ c, eid ≠ .member c)
    (h3 : eid ≠ .indexE) :
    is_symbol_member_index (.mk eid ops ty) = false := by
  unfold is_symbol_member_index
  rw [ismi_loop_other eid ops ty h1 h2 h3]
  simp [Exprt.type]

/-- A leftover plain `Dereference` operand in SSA form. -/
def dptr : Exprt :=
  .mk .dereference [.mk (.symbol "p#1" true) [] (.signedbv 64)] (.signedbv 32)

/-- Claim C3 (as stated) is false: on a leftover plain `Dereference`
node the SSA Instantiation Engine does not mint a replacement symbol;
no rule fires (`none`), the node is left in place and only its
operands are descended into. -/
theorem c3_counterexample :
    instantiate_node defaultConfig 6 initState dptr false = .ok (none, initState) ∧
    instantiate_rec defaultConfig 6 initState dptr false = .ok (dptr, initState) :=
  ⟨rfl, rfl⟩

/-- Claim C3 (amended): only the two dereference artifacts with their
own ids are replaced by freshly minted unconstrained auxiliary symbols
of the expression's type — `integer_dereference` (integer cast to
pointer) and `dereference_failure` — each drawing a
`symex::deref<nondet_count>` name and incrementing the shared counter;
a leftover plain `Dereference` node triggers no rule at all and is left
for the operand descent. -/
theorem c3_deref_rules (cfg : Configt) (fuel : Nat) (s : Statet)
    (ops : List Exprt) (ty : Typet) (propagate : Bool) :
    (instantiate_node cfg (fuel+1) s (.mk .integer_dereference ops ty) propagate =
      .ok (some (.mk (.symbol ("symex::deref" ++ natToString s.var_map.nondet_count) false) [] ty),
        { s with var_map :=
            { s.var_map with
                nondet_count := s.var_map.nondet_count + 1
                new_symbols := s.var_map.new_symbols ++
                  [("symex::deref" ++ natToString s.var_map.nondet_count, ty)] } })) ∧
    (instantiate_node cfg (fuel+1) s (.mk .dereference_failure ops ty) propagate =
      .ok (some (.mk (.symbol ("symex::deref" ++ natToString s.var_map.nondet_count) false) [] ty),
        { s with var_map :=
            { s.var_map with
                nondet_count := s.var_map.nondet_count + 1
                new_symbols := s.var_map.new_symbols ++
                  [("symex::deref" ++ natToString s.var_map.nondet_count, ty)] } })) ∧
    (instantiate_node cfg (fuel+1) s (.mk .dereference ops ty) propagate =
      .ok (none, s)) := by
  refine ⟨?_, ?_, ?_⟩ <;>
    · rw [instantiate_node, is_symbol_member_index_other]
      all_goals simp [Exprt.eid, Exprt.type]
      all_goals try rfl

/-- The registry after one auxiliary `symex::deref` mint from the
initial state. -/
def c3vm : VarMapt :=
  { id_map := [], nondet_count := 1, dynamic_count := 0,
    new_symbols := [("symex::deref0", .signedbv 32)] }

/-- Witness for C3's amended theorem at a concrete
`integer_dereference` of an integer address and the concrete plain
dereference `dptr`. -/
theorem c3_witness :
    instantiate_node defaultConfig 6 initState
        (.mk .integer_dereference [.mk (.constant 123) [] (.signedbv 64)] (.signedbv 32)) false =
      .ok (some (.mk (.symbol "symex::deref0" false) [] (.signedbv 32)),
        { var_map := c3vm, var_states := [] }) ∧
    instantiate_node defaultConfig 6 initState dptr false = .ok (none, initState) :=
  ⟨(c3_deref_rules defaultConfig 5 initState
      [.mk (.constant 123) [] (.signedbv 64)] (.signedbv 32) false).1,
   (c3_deref_rules defaultConfig 5 initState
      [.mk (.symbol "p#1" true) [] (.signedbv 64)] (.signedbv 32) false).2.2⟩

/-! ### The scalar resolution tail of `read_symbol_member_index`

The following helper lemma captures what the resolver does once an
access has passed the function-type test, the unbounded-array special
case, the composite expansion (unchanged), the case splitter
(unchanged) and the suffix walk (successful): the registry lookup and
the propagate/SSA/mint decision tree.  The side conditions are stated
as the observable outcomes of the involved passes, so the lemma covers
every access for which those passes are the identity. -/

theorem rsmi_scalar_tail (cfg : Configt) (fuel : Nat) (s : Statet) (src : Exprt)
    (propagate : Bool) (identifier sfx : String) (var_info : VarInfot)
    (vm : VarMapt) (vs : VarStatet)
    (h1 : ((follow src.type).is_code || (follow src.type).is_math_function) = false)
    (h2 : (decide (src.eid = ExprIdt.indexE) &&
      is_unbounded_array (src.operands.getD 0 default).type) = false)
    (h3 : expand_structs_and_arrays cfg fuel src = .ok src)
    (h4 : (decide (src.eid = ExprIdt.structE) || decide (src.eid = ExprIdt.arrayE) ||
      decide (src.eid = ExprIdt.vectorE)) = false)
    (h5 : array_theory cfg fuel s src propagate = .ok (src, s))
    (h6 : src.eid ≠ ExprIdt.ifE)
    (h7 : src.eid ≠ ExprIdt.condE)
    (h8 : rsmi_suffix_walk cfg fuel s src "" propagate = .ok (some (identifier, sfx), s))
    (hvm : var_map_apply cfg s.var_map identifier sfx src = (var_info, vm))
    (hvs : get_var_state { s with var_map := vm } var_info.number = vs) :
    read_symbol_member_index cfg (fuel+1) s src propagate =
      .ok (
        if propagate && vs.value.isSome then
          (some (vs.value.getD default), { s with var_map := vm })
        else if vs.ssa_symbol.isSome then
          (some (vs.ssa_symbol.getD default), { s with var_map := vm })
        else if propagate then
          if (cfg.zero_initializer var_info.ssa_symbol.type).isSome then
            (some ((cfg.zero_initializer var_info.ssa_symbol.type).getD default),
             set_var_state { s with var_map := vm } var_info.number
               ⟨some ((cfg.zero_initializer var_info.ssa_symbol.type).getD default),
                some var_info.ssa_symbol⟩)
          else
            (some var_info.ssa_symbol,
             set_var_state { s with var_map := vm } var_info.number
               ⟨vs.value, some var_info.ssa_symbol⟩)
        else
          (some var_info.ssa_symbol,
           set_var_state { s with var_map := vm } var_info.number
             ⟨vs.value, some var_info.ssa_symbol⟩)) := by
  rw [read_symbol_member_index]
  simp only [h1, h2, h3, h4, h5, h8, hvm, hvs, Bool.false_eq_true, if_false,
    Except.bind, bind]
  rw [if_neg h6, if_neg h7]
  cases propagate <;> simp [pure, Except.pure] <;> split_ifs <;> rfl

/-- Finding a key just appended to a map that lacked it. -/
theorem assoc_find_append_self {α : Type} (l : List (String × α)) (k : String)
    (v : α) (h : assoc_find l k = none) :
    assoc_find (l ++ [(k, v)]) k = some v := by
  induction l with
  | nil => simp [assoc_find]
  | cons p rest ih =>
      rw [assoc_find] at h
      rcases p with ⟨k', v'⟩
      by_cases hk : k' = k
      · rw [if_pos hk] at h
        exact absurd h (by simp)
      · rw [if_neg hk] at h
        simpa [assoc_find, hk] using ih h

/-- Allocate-or-fetch leaves the registry with the variable present
under its `full_identifier` key. -/
theorem var_map_apply_find (cfg : Configt) (vm : VarMapt)
    (identifier sfx : String) (orig : Exprt) (var_info : VarInfot) (vm' : VarMapt)
    (h : var_map_apply cfg vm identifier sfx orig = (var_info, vm')) :
    assoc_find vm'.id_map (identifier ++ sfx) = some var_info := by
  unfold var_map_apply at h
  rcases hfind : assoc_find vm.id_map (identifier ++ sfx) with _ | vi
  · simp only [hfind] at h
    cases h
    simpa using assoc_find_append_self _ _ _ hfind
  · simp only [hfind] at h
    cases h
    exact hfind

/-- Allocate-or-fetch is idempotent: a second lookup with the same
identity on the updated registry fetches the same entry and leaves the
registry unchanged. -/
theorem var_map_apply_idem (cfg : Configt) (vm : VarMapt)
    (identifier sfx : String) (orig : Exprt) (var_info : VarInfot) (vm' : VarMapt)
    (h : var_map_apply cfg vm identifier sfx orig = (var_info, vm')) :
    var_map_apply cfg vm' identifier sfx orig = (var_info, vm') := by
  have hfind := var_map_apply_find cfg vm identifier sfx orig var_info vm' h
  simp [var_map_apply, hfind]

/-- Reading back a freshly written per-path variable state. -/
theorem assoc_set_find {κ α : Type} [DecidableEq κ] (l : List (κ × α))
    (k : κ) (v : α) : assoc_find (assoc_set l k v) k = some v := by
  induction l with
  | nil => simp [assoc_set, assoc_find]
  | cons p rest ih =>
      rcases p with ⟨k', v'⟩
      by_cases hk : k' = k
      · simp [assoc_set, assoc_find, hk]
      · simp [assoc_set, assoc_find, hk, ih]

/-- `get_var_state` after `set_var_state` at the same number. -/
theorem get_var_state_set (s : Statet) (n : Nat) (vs : VarStatet) :
    get_var_state (set_var_state s n vs) n = vs := by
  unfold get_var_state set_var_state
  simp [assoc_set_find]

/-! ### Fixtures for the scalar read scenarios -/

/-- A scalar program variable `x` of type `int`, never seen before. -/
def xsym : Exprt := .mk (.symbol "x" false) [] (.signedbv 32)

/-- The SSA symbol minted for `x` at version 0. -/
def xssa0 : Exprt := .mk (.symbol "x#0" true) [] (.signedbv 32)

/-- The registry entry created for `x` on first sight. -/
def xvi : VarInfot :=
  { kind := .SHARED, number := 0, full_identifier := "x",
    symbol := "x", suffix := "", original := xsym, ssa_counter := 0 }

/-- The registry after `x` is first seen. -/
def xvm : VarMapt :=
  { id_map := [("x", xvi)], nondet_count := 0, dynamic_count := 0, new_symbols := [] }

/-- The state after a propagation-off first read of `x`: the SSA
symbol is stored, no value is cached. -/
def xstate : Statet :=
  { var_map := xvm, var_states := [(0, { value := none, ssa_symbol := some xssa0 })] }

/-- The canonical zero value of `x`'s type. -/
def xzero : Exprt := .mk (.constant 0) [] (.signedbv 32)

/-- The state after a propagation-on first read of `x`: the SSA symbol
is stored and the zero value is cached. -/
def xstatez : Statet :=
  { var_map := xvm, var_states := [(0, { value := some xzero, ssa_symbol := some xssa0 })] }

/-! ### C5 -/

/-- Claim C5 (confirmed): on the first read of a never-before-seen
scalar access on a path (no cached value and no SSA symbol in the
path's `var_statet`) with propagation enabled, if the zero synthesizer
produces a value for the variable's type then
`read_symbol_member_index` caches that value (together with the minted
SSA symbol) in the path state and returns the value instead of the
symbol; if the synthesizer declines, the minted SSA symbol itself is
returned and stored. -/
theorem c5_first_read_default (cfg : Configt) (fuel : Nat) (s : Statet)
    (src : Exprt) (identifier sfx : String) (var_info : VarInfot) (vm : VarMapt)
    (h1 : ((follow src.type).is_code || (follow src.type).is_math_function) = false)
    (h2 : (decide (src.eid = ExprIdt.indexE) &&
      is_unbounded_array (src.operands.getD 0 default).type) = false)
    (h3 : expand_structs_and_arrays cfg fuel src = .ok src)
    (h4 : (decide (src.eid = ExprIdt.structE) || decide (src.eid = ExprIdt.arrayE) ||
      decide (src.eid = ExprIdt.vectorE)) = false)
    (h5 : array_theory cfg fuel s src true = .ok (src, s))
    (h6 : src.eid ≠ ExprIdt.ifE)
    (h7 : src.eid ≠ ExprIdt.condE)
    (h8 : rsmi_suffix_walk cfg fuel s src "" true = .ok (some (identifier, sfx), s))
    (hvm : var_map_apply cfg s.var_map identifier sfx src = (var_info, vm))
    (hvs : get_var_state { s with var_map := vm } var_info.number = ⟨none, none⟩) :
    (∀ z, cfg.zero_initializer var_info.ssa_symbol.type = some z →
      read_symbol_member_index cfg (fuel+1) s src true =
        .ok (some z, set_var_state { s with var_map := vm } var_info.number
          ⟨some z, some var_info.ssa_symbol⟩)) ∧
    (cfg.zero_initializer var_info.ssa_symbol.type = none →
      read_symbol_member_index cfg (fuel+1) s src true =
        .ok (some var_info.ssa_symbol,
          set_var_state { s with var_map := vm } var_info.number
            ⟨none, some var_info.ssa_symbol⟩)) := by
  have key := rsmi_scalar_tail cfg fuel s src true identifier sfx var_info vm
    ⟨none, none⟩ h1 h2 h3 h4 h5 h6 h7 h8 hvm hvs
  constructor
  · intro z hz
    rw [key]
    simp [hz]
  · intro hz
    rw [key]
    simp [hz]

/-- Witness for C5: the first propagation-on read of `x` returns the
zero constant and caches it next to the minted `x#0`. -/
theorem c5_witness :
    read_symbol_member_index defaultConfig 5 initState xsym true =
      .ok (some xzero, xstatez) :=
  (c5_first_read_default defaultConfig 4 initState xsym "x" "" xvi xvm
    rfl rfl rfl rfl rfl (by decide) (by decide) rfl rfl rfl).1 xzero rfl

/-! ### C6 -/

/-- Claim C6 (confirmed): with propagation disabled the resolver never
returns the cached concrete value of the path's `var_statet`, whatever
that cache holds: if an SSA symbol is stored it is returned, and
otherwise a fresh SSA symbol is minted (an SSA-tagged symbol
expression) and returned, the cached value being ignored in both
cases. -/
theorem c6_no_propagation (cfg : Configt) (fuel : Nat) (s : Statet)
    (src : Exprt) (identifier sfx : String) (var_info : VarInfot) (vm : VarMapt)
    (vs : VarStatet)
    (h1 : ((follow src.type).is_code || (follow src.type).is_math_function) = false)
    (h2 : (decide (src.eid = ExprIdt.indexE) &&
      is_unbounded_array (src.operands.getD 0 default).type) = false)
    (h3 : expand_structs_and_arrays cfg fuel src = .ok src)
    (h4 : (decide (src.eid = ExprIdt.structE) || decide (src.eid = ExprIdt.arrayE) ||
      decide (src.eid = ExprIdt.vectorE)) = false)
    (h5 : array_theory cfg fuel s src false = .ok (src, s))
    (h6 : src.eid ≠ ExprIdt.ifE)
    (h7 : src.eid ≠ ExprIdt.condE)
    (h8 : rsmi_suffix_walk cfg fuel s src "" false = .ok (some (identifier, sfx), s))
    (hvm : var_map_apply cfg s.var_map identifier sfx src = (var_info, vm))
    (hvs : get_var_state { s with var_map := vm } var_info.number = vs) :
    (∀ σ, vs.ssa_symbol = some σ →
      read_symbol_member_index cfg (fuel+1) s src false =
        .ok (some σ, { s with var_map := vm })) ∧
    (vs.ssa_symbol = none →
      read_symbol_member_index cfg (fuel+1) s src false =
        .ok (some var_info.ssa_symbol,
          set_var_state { s with var_map := vm } var_info.number
            ⟨vs.value, some var_info.ssa_symbol⟩)) ∧
    var_info.ssa_symbol.is_ssa_symbol = true := by
  have key := rsmi_scalar_tail cfg fuel s src false identifier sfx var_info vm
    vs h1 h2 h3 h4 h5 h6 h7 h8 hvm hvs
  refine ⟨?_, ?_, rfl⟩
  · intro σ hσ
    rw [key]
    simp [hσ]
  · intro hσ
    rw [key]
    simp [hσ]

/-- Witness for C6: in a state whose `var_statet` for `x` holds both a
cached zero value and the symbol `x#0`, a propagation-off read returns
the symbol, not the value, and leaves the state unchanged. -/
theorem c6_witness :
    read_symbol_member_index defaultConfig 5 xstatez xsym false =
      .ok (some xssa0, xstatez) :=
  (c6_no_propagation defaultConfig 4 xstatez xsym "x" "" xvi xvm
    ⟨some xzero, some xssa0⟩ rfl rfl rfl rfl rfl (by decide) (by decide)
    rfl rfl rfl).1 xssa0 rfl

/-! ### C2 -/

/-- Claim C2 (as stated) is false: the first propagation-off read of
the fresh scalar `x` mints the SSA symbol `x#0` and stores it in the
path state, yet the registry's version counter for `x` is 0 after the
call — identical to the value the symbol was minted from, not
advanced. -/
theorem c2_counterexample :
    read_symbol_member_index defaultConfig 5 initState xsym false =
      .ok (some xssa0, xstate) ∧
    assoc_find xstate.var_map.id_map "x" = some xvi ∧
    xvi.ssa_counter = 0 ∧
    xvi.ssa_symbol = xssa0 :=
  ⟨rfl, rfl, rfl, rfl⟩

/-- Claim C2 (amended): when `read_symbol_member_index` mints a fresh
SSA symbol for a never-before-seen access on a path, the symbol is
minted from the current version counter and stored in the path state,
but the registry — including the variable's `ssa_counter` — is left
exactly as the allocate-or-fetch produced it: the counter is not
advanced by the read.  Advancing is the job of
`var_infot::increment_ssa_counter`, which strictly increases the
counter by one. -/
theorem c2_mint_preserves_counter (cfg : Configt) (fuel : Nat) (s : Statet)
    (src : Exprt) (identifier sfx : String) (var_info : VarInfot) (vm : VarMapt)
    (h1 : ((follow src.type).is_code || (follow src.type).is_math_function) = false)
    (h2 : (decide (src.eid = ExprIdt.indexE) &&
      is_unbounded_array (src.operands.getD 0 default).type) = false)
    (h3 : expand_structs_and_arrays cfg fuel src = .ok src)
    (h4 : (decide (src.eid = ExprIdt.structE) || decide (src.eid = ExprIdt.arrayE) ||
      decide (src.eid = ExprIdt.vectorE)) = false)
    (h5 : array_theory cfg fuel s src false = .ok (src, s))
    (h6 : src.eid ≠ ExprIdt.ifE)
    (h7 : src.eid ≠ ExprIdt.condE)
    (h8 : rsmi_suffix_walk cfg fuel s src "" false = .ok (some (identifier, sfx), s))
    (hvm : var_map_apply cfg s.var_map identifier sfx src = (var_info, vm))
    (hvs : get_var_state { s with var_map := vm } var_info.number = ⟨none, none⟩) :
    read_symbol_member_index cfg (fuel+1) s src false =
      .ok (some var_info.ssa_symbol,
        set_var_state { s with var_map := vm } var_info.number
          ⟨none, some var_info.ssa_symbol⟩) ∧
    (set_var_state { s with var_map := vm } var_info.number
      ⟨none, some var_info.ssa_symbol⟩).var_map = vm ∧
    assoc_find vm.id_map (identifier ++ sfx) = some var_info ∧
    (∀ v : VarInfot, v.increment_ssa_counter.ssa_counter = v.ssa_counter + 1) := by
  have key := rsmi_scalar_tail cfg fuel s src false identifier sfx var_info vm
    ⟨none, none⟩ h1 h2 h3 h4 h5 h6 h7 h8 hvm hvs
  refine ⟨?_, rfl, var_map_apply_find cfg s.var_map identifier sfx src var_info vm hvm,
    fun v => rfl⟩
  rw [key]
  simp

/-- Witness for C2's amended theorem at the concrete first read of
`x`. -/
theorem c2_witness :
    read_symbol_member_index defaultConfig 5 initState xsym false =
      .ok (some xssa0, xstate) ∧
    assoc_find xvm.id_map "x" = some xvi :=
  have h := c2_mint_preserves_counter defaultConfig 4 initState xsym "x" "" xvi xvm
    rfl rfl rfl rfl rfl (by decide) (by decide) rfl rfl rfl
  ⟨h.1, h.2.2.1⟩

/-! ### C7 -/

/-- Claim C7 (confirmed): two consecutive reads of the same unmodified
resolvable scalar access on the same path with propagation off return
the identical SSA symbol — the second read returns exactly the symbol
the first read produced, and leaves the state untouched. -/
theorem c7_idempotent_read (cfg : Configt) (fuel : Nat) (src : Exprt)
    (identifier sfx : String)
    (h1 : ((follow src.type).is_code || (follow src.type).is_math_function) = false)
    (h2 : (decide (src.eid = ExprIdt.indexE) &&
      is_unbounded_array (src.operands.getD 0 default).type) = false)
    (h3 : expand_structs_and_arrays cfg fuel src = .ok src)
    (h4 : (decide (src.eid = ExprIdt.structE) || decide (src.eid = ExprIdt.arrayE) ||
      decide (src.eid = ExprIdt.vectorE)) = false)
    (h5 : ∀ s' : Statet, array_theory cfg fuel s' src false = .ok (src, s'))
    (h6 : src.eid ≠ ExprIdt.ifE)
    (h7 : src.eid ≠ ExprIdt.condE)
    (h8 : ∀ s' : Statet, rsmi_suffix_walk cfg fuel s' src "" false =
      .ok (some (identifier, sfx), s'))
    (s s1 : Statet) (σ : Exprt)
    (hfirst : read_symbol_member_index cfg (fuel+1) s src false = .ok (some σ, s1)) :
    read_symbol_member_index cfg (fuel+1) s1 src false = .ok (some σ, s1) := by
  rcases hvm : var_map_apply cfg s.var_map identifier sfx src with ⟨vi, vm⟩
  have key1 := rsmi_scalar_tail cfg fuel s src false identifier sfx vi vm
    (get_var_state { s with var_map := vm } vi.number) h1 h2 h3 h4 (h5 s) h6 h7 (h8 s) hvm rfl
  have hvm2 := var_map_apply_idem cfg s.var_map identifier sfx src vi vm hvm
  rw [key1] at hfirst
  simp only [Bool.false_and, Bool.false_eq_true, if_false] at hfirst
  rcases hσ : (get_var_state { s with var_map := vm } vi.number).ssa_symbol with _ | σ0
  · -- first read mints
    rw [hσ] at hfirst
    simp only [Option.isSome_none, Bool.false_eq_true, if_false,
      Except.ok.injEq, Prod.mk.injEq, Option.some.injEq] at hfirst
    obtain ⟨h9, h10⟩ := hfirst
    subst h9
    subst h10
    have key2 := rsmi_scalar_tail cfg fuel
      (set_var_state { s with var_map := vm } vi.number
        ⟨(get_var_state { s with var_map := vm } vi.number).value, some vi.ssa_symbol⟩)
      src false identifier sfx vi vm
      ⟨(get_var_state { s with var_map := vm } vi.number).value, some vi.ssa_symbol⟩
      h1 h2 h3 h4 (h5 _) h6 h7 (h8 _) hvm2
      (get_var_state_set { s with var_map := vm } vi.number
        ⟨(get_var_state { s with var_map := vm } vi.number).value, some vi.ssa_symbol⟩)
    rw [key2]
    rfl
  · -- first read returns the stored symbol
    rw [hσ] at hfirst
    simp only [Option.isSome_some, if_true, Option.getD_some,
      Except.ok.injEq, Prod.mk.injEq, Option.some.injEq] at hfirst
    obtain ⟨h9, h10⟩ := hfirst
    subst h9
    subst h10
    have key2 := rsmi_scalar_tail cfg fuel { s with var_map := vm }
      src false identifier sfx vi vm
      (get_var_state { s with var_map := vm } vi.number)
      h1 h2 h3 h4 (h5 _) h6 h7 (h8 _) hvm2 rfl
    rw [key2]
    rw [hσ]
    rfl

/-- Witness for C7: after the first propagation-off read of `x`
produced `x#0` and the state `xstate`, a second read returns the same
`x#0` and the same state. -/
theorem c7_witness :
    read_symbol_member_index defaultConfig 5 xstate xsym false =
      .ok (some xssa0, xstate) :=
  c7_idempotent_read defaultConfig 4 xsym "x" "" rfl rfl rfl rfl (fun _ => rfl)
    (by decide) (by decide) (fun _ => rfl) initState xstate xssa0 rfl

/-! ### C4 -/

/-- The guard/value list built by the case splitter holds two operands
per concrete index: a branch is one guard followed by its value. -/
theorem cond_add_cases_length (idx arr : Exprt) (st : Typet) (l : List Nat) :
    (cond_add_cases idx arr st l).length = 2 * l.length := by
  induction l with
  | nil => rfl
  | cons i rest ih => simp [cond_add_cases, ih]; ring

/-- Branch `j` of the case list for index list `l`: the guard
`index == l_j` at position `2j` and the element `array[l_j]` at
position `2j+1`. -/
theorem cond_add_cases_get (idx arr : Exprt) (st : Typet) :
    ∀ (l : List Nat) (j : Nat) (hj : j < l.length),
    (cond_add_cases idx arr st l).get? (2*j) =
      some (.mk .equalE [idx, .mk (.constant (Int.ofNat (l.get ⟨j, hj⟩))) [] idx.type] .boolT) ∧
    (cond_add_cases idx arr st l).get? (2*j+1) =
      some (.mk .indexE [arr, .mk (.constant (Int.ofNat (l.get ⟨j, hj⟩))) [] idx.type] st) := by
  intro l
  induction l with
  | nil => intro j hj; exact absurd hj (by simp)
  | cons i rest ih =>
      intro j hj
      match j with
      | 0 => exact ⟨rfl, rfl⟩
      | j'+1 =>
          have hj' : j' < rest.length := by simpa using hj
          have := ih j' hj'
          constructor
          · rw [show 2*(j'+1) = (2*j') + 2 by ring]
            simpa [cond_add_cases] using this.1
          · rw [show 2*(j'+1)+1 = (2*j'+1) + 2 by ring]
            simpa [cond_add_cases] using this.2

/-- Claim C4 (confirmed): for an `Index` into a bounded array of
statically known size `n` whose index, after the full read and the
external simplification, is not constant, `array_theory` returns a
flat conditional of exactly `n` guarded branches — branch `i` being
the guard `index == i` (at operand `2i`) with value `array[i]` (at
operand `2i+1`), in order `i = 0 .. n-1`; for an unbounded array, or
when the index reduces to a constant, the input is returned
unchanged. -/
theorem c4_array_theory (cfg : Configt) (fuel : Nat) (s s1 : Statet)
    (arr idx : Exprt) (ty subtype : Typet) (propagate : Bool) :
    (∀ n t1, arr.type = .arrayT subtype (.const n) →
      read cfg fuel s idx propagate = .ok (t1, s1) →
      (cfg.simplify t1).is_constant = false →
      array_theory cfg (fuel+1) s (.mk .indexE [arr, idx] ty) propagate =
        .ok (.mk .condE (cond_add_cases idx arr subtype (List.range n)) ty, s1) ∧
      (cond_add_cases idx arr subtype (List.range n)).length = 2 * n ∧
      (∀ i, i < n →
        (cond_add_cases idx arr subtype (List.range n)).get? (2*i) =
          some (.mk .equalE [idx, .mk (.constant (Int.ofNat i)) [] idx.type] .boolT) ∧
        (cond_add_cases idx arr subtype (List.range n)).get? (2*i+1) =
          some (.mk .indexE [arr, .mk (.constant (Int.ofNat i)) [] idx.type] subtype))) ∧
    (arr.type = .arrayT subtype .infinity →
      array_theory cfg (fuel+1) s (.mk .indexE [arr, idx] ty) propagate =
        .ok (.mk .indexE [arr, idx] ty, s)) ∧
    (∀ n t1, arr.type = .arrayT subtype (.const n) →
      read cfg fuel s idx propagate = .ok (t1, s1) →
      (cfg.simplify t1).is_constant = true →
      array_theory cfg (fuel+1) s (.mk .indexE [arr, idx] ty) propagate =
        .ok (.mk .indexE [arr, idx] ty, s1)) := by
  refine ⟨?_, ?_, ?_⟩
  · intro n t1 h hread hconst
    refine ⟨?_, cond_add_cases_length idx arr subtype (List.range n) ▸ by simp, ?_⟩
    · rw [array_theory]
      simp [Exprt.eid, Exprt.operands, h, hread, hconst, is_unbounded_array,
        numeric_cast_size, Except.bind, bind]
      rfl
    · intro i hi
      have hj : i < (List.range n).length := by simpa using hi
      have := cond_add_cases_get idx arr subtype (List.range n) i hj
      simpa [List.getElem_range] using this
  · intro h
    rw [array_theory]
    simp [Exprt.eid, Exprt.operands, h, is_unbounded_array]
    rfl
  · intro n t1 h hread hconst
    rw [array_theory]
    simp [Exprt.eid, Exprt.operands, h, hread, hconst, is_unbounded_array,
      Except.bind, bind]
    rfl

/-- A bounded two-element `int` array variable. -/
def arr2 : Exprt := .mk (.symbol "arr" false) [] (.arrayT (.signedbv 32) (.const 2))

/-- A symbolic (already SSA) index. -/
def isym : Exprt := .mk (.symbol "i#3" true) [] (.signedbv 64)

/-- The access `arr[i]`. -/
def acc : Exprt := .mk .indexE [arr2, isym] (.signedbv 32)

/-- Witness for C4 at the concrete symbolic access `arr[i]` into a
2-element array: a flat conditional with the two guarded branches. -/
theorem c4_witness :
    array_theory defaultConfig 9 initState acc false =
      .ok (.mk .condE (cond_add_cases isym arr2 (.signedbv 32) (List.range 2))
        (.signedbv 32), initState) ∧
    (cond_add_cases isym arr2 (.signedbv 32) (List.range 2)).length = 2 * 2 :=
  have h := (c4_array_theory defaultConfig 8 initState initState arr2 isym
    (.signedbv 32) (.signedbv 32) false).1 2 isym rfl rfl rfl
  ⟨h.1, h.2.1⟩

/-! ### C8 -/

/-- A union type with a scalar member `f` and a struct member `g`. -/
def uty : Typet := .unionT [("f", .signedbv 32), ("g", .structT [("a", .signedbv 32)])]

/-- A union-typed variable `u`. -/
def usym : Exprt := .mk (.symbol "u" false) [] uty

/-- The scalar-typed member access `u.f` through the union. -/
def uf : Exprt := .mk (.member "f") [usym] (.signedbv 32)

/-- The struct-typed member access `u.g` through the union. -/
def ug : Exprt := .mk (.member "g") [usym] (.structT [("a", .signedbv 32)])

/-- Claim C8 (as stated) is false: on the member access `u.g` whose
compound operand is union-typed but whose own type is a struct, the
Structural Decomposer first splits the access into its fields, and the
resolver then dies on the unchecked `optionalt::value()` of the
child's "not applicable" result — a crash, not a no-result.
(`is_symbol_member_index` does reject the access, so the crash is not
reachable through `instantiate_node`; but the claim quantifies over
every union member access handed to the resolver.) -/
theorem c8_counterexample :
    read_symbol_member_index defaultConfig 8 initState ug false =
      .error "optional has no value" ∧
    is_symbol_member_index ug = false :=
  ⟨rfl, rfl⟩

/-- Claim C8 (amended): for a member access through a union-typed
compound, `is_symbol_member_index` always answers false, and
`read_symbol_member_index` signals "not applicable" (`none`, without
state change and without failure) whenever the access itself is not
decomposed by the Structural Decomposer (in particular for every
scalar-typed union member); a union member whose own type is composite
instead aborts in the decomposed children's unchecked
`optionalt::value()`. -/
theorem c8_union_not_applicable (cfg : Configt) (fuel : Nat) (s : Statet)
    (op : Exprt) (rest : List Exprt) (comp : String) (ty : Typet)
    (cs : List (String × Typet)) (propagate : Bool)
    (hu : follow op.type = .unionT cs)
    (hexp : expand_structs_and_arrays cfg (fuel+1) (.mk (.member comp) (op :: rest) ty) =
      .ok (.mk (.member comp) (op :: rest) ty)) :
    read_symbol_member_index cfg (fuel+2) s (.mk (.member comp) (op :: rest) ty) propagate =
      .ok (none, s) ∧
    is_symbol_member_index (.mk (.member comp) (op :: rest) ty) = false := by
  constructor
  · rw [read_symbol_member_index]
    cases hcode : ((follow (Exprt.type (.mk (.member comp) (op :: rest) ty))).is_code ||
        (follow (Exprt.type (.mk (.member comp) (op :: rest) ty))).is_math_function) with
    | true =>
        simp only [hcode]
        rfl
    | false =>
        simp [hcode, hexp, Except.bind, bind,
          array_theory, rsmi_suffix_walk, hu, Typet.is_struct, pure, Except.pure]
  · unfold is_symbol_member_index ismi_loop
    simp [hu, Typet.is_struct]

/-- Witness for C8's amended theorem at the scalar union member
`u.f`: "not applicable", no crash, no state change. -/
theorem c8_witness :
    read_symbol_member_index defaultConfig 6 initState uf false = .ok (none, initState) ∧
    is_symbol_member_index uf = false :=
  c8_union_not_applicable defaultConfig 4 initState usym [] "f" (.signedbv 32)
    [("f", .signedbv 32), ("g", .structT [("a", .signedbv 32)])] false rfl rfl

/-! ### C10 -/

/-- Base-10 digit rendering, used to reason about the decimal names of
auxiliary symbols. -/
def decChars (n : Nat) : List Char :=
  if _h : n < 10 then [Nat.digitChar n]
  else decChars (n / 10) ++ [Nat.digitChar (n % 10)]
decreasing_by
  exact Nat.div_lt_self (by omega) (by omega)

theorem decChars_small {n : Nat} (h : n < 10) :
    decChars n = [Nat.digitChar n] := by
  rw [decChars]
  simp [h]

theorem decChars_big {n : Nat} (h : ¬ n < 10) :
    decChars n = decChars (n / 10) ++ [Nat.digitChar (n % 10)] := by
  conv_lhs => rw [decChars]
  simp [h]

theorem toDigitsCore10 : ∀ (f n : Nat) (l : List Char), n < f →
    Nat.toDigitsCore 10 f n l = decChars n ++ l := by
  intro f
  induction f with
  | zero => intro n l h; omega
  | succ f ih =>
      intro n l h
      rw [Nat.toDigitsCore]
      by_cases h10 : n < 10
      · have hz : n / 10 = 0 := Nat.div_eq_of_lt h10
        simp [hz, decChars_small h10, Nat.mod_eq_of_lt h10]
      · have hne : n / 10 ≠ 0 := by
          intro hz
          exact h10 (by omega)
        have hlt : n / 10 < f := by
          have h1 : n / 10 < n := Nat.div_lt_self (by omega) (by omega)
          omega
        simp only [hne, if_false, ite_false]
        rw [ih (n / 10) _ hlt, decChars_big h10]
        simp

theorem repr_eq_decChars (n : Nat) : natToString n = ⟨decChars n⟩ := by
  unfold natToString Nat.repr Nat.toDigits
  rw [toDigitsCore10 (n+1) n [] (by omega)]
  simp [List.asString]

theorem digitChar_inj :
    ∀ a, a < 10 → ∀ b, b < 10 → Nat.digitChar a = Nat.digitChar b → a = b := by
  decide

theorem decChars_ne_nil (n : Nat) : decChars n ≠ [] := by
  by_cases h : n < 10
  · simp [decChars_small h]
  · simp [decChars_big h]

theorem decChars_inj : ∀ a b, decChars a = decChars b → a = b := by
  intro a
  induction a using Nat.strong_induction_on with
  | _ a ih =>
      intro b h
      by_cases ha : a < 10 <;> by_cases hb : b < 10
      · rw [decChars_small ha, decChars_small hb] at h
        exact digitChar_inj a ha b hb (by simpa using h)
      · rw [decChars_small ha, decChars_big hb] at h
        have hlen := congrArg List.length h
        rw [List.length_singleton, List.length_append, List.length_singleton] at hlen
        have hpos := List.length_pos.mpr (decChars_ne_nil (b / 10))
        omega
      · rw [decChars_big ha, decChars_small hb] at h
        have hlen := congrArg List.length h
        rw [List.length_append, List.length_singleton, List.length_singleton] at hlen
        have hpos := List.length_pos.mpr (decChars_ne_nil (a / 10))
        omega
      · rw [decChars_big ha, decChars_big hb] at h
        obtain ⟨h1, h2⟩ := List.append_inj' h (by simp)
        have hdiv : a / 10 = b / 10 :=
          ih (a / 10) (Nat.div_lt_self (by omega) (by omega)) (b / 10) h1
        have hmod : a % 10 = b % 10 :=
          digitChar_inj _ (Nat.mod_lt a (by omega)) _ (Nat.mod_lt b (by omega))
            (by simpa using h2)
        omega

theorem string_data_inj {s t : String} (h : s.data = t.data) : s = t := by
  cases s
  cases t
  exact congrArg String.mk h

theorem natToString_inj (a b : Nat) (h : natToString a = natToString b) :
    a = b := by
  rw [repr_eq_decChars, repr_eq_decChars] at h
  exact decChars_inj a b (congrArg String.data h)

theorem append_natToString_inj (p : String) (a b : Nat)
    (h : p ++ natToString a = p ++ natToString b) : a = b := by
  have hd := congrArg String.data h
  simp only [String.data_append] at hd
  exact natToString_inj a b (string_data_inj (List.append_cancel_left hd))

theorem string_append_right_inj (s t u : String) (h : s ++ u = t ++ u) :
    s = t := by
  have hd := congrArg String.data h
  simp only [String.data_append] at hd
  exact string_data_inj (List.append_cancel_right hd)

theorem nondet_name_ne_deref_name (a b : Nat) :
    "symex::nondet" ++ natToString a ≠ "symex::deref" ++ natToString b := by
  intro h
  have hd := congrArg (fun s : String => s.data.getD 7 ' ') h
  simp only [String.data_append] at hd
  rw [List.getD_append, List.getD_append] at hd
  · exact absurd hd (by decide)
  · decide
  · decide



theorem array_theory_not_index (cfg : Configt) (g : Nat) (s : Statet)
    (src : Exprt) (p : Bool) (h : src.eid ≠ ExprIdt.indexE) :
    array_theory cfg (g+1) s src p = .ok (src, s) := by
  rw [array_theory]
  rcases src with ⟨eid, ops, t⟩
  cases eid <;> first
    | rfl
    | exact absurd rfl h

theorem rsmi_suffix_walk_symbol (cfg : Configt) (g : Nat) (s : Statet)
    (id : String) (t : Typet) (ops : List Exprt) (sfx : String) (p : Bool) :
    rsmi_suffix_walk cfg (g+1) s (.mk (.symbol id false) ops t) sfx p =
      .ok (some (id, sfx), s) := rfl

theorem instantiate_node_nondet (cfg : Configt) (g : Nat) (s : Statet)
    (ops : List Exprt) (ty : Typet) (propagate : Bool) :
    instantiate_node cfg (g+1) s (.mk (.side_effect "nondet") ops ty) propagate =
      read_symbol_member_index cfg g
        { s with var_map :=
            { s.var_map with
                nondet_count := s.var_map.nondet_count + 1
                new_symbols := s.var_map.new_symbols ++
                  [("symex::nondet" ++ natToString s.var_map.nondet_count, ty)] } }
        (.mk (.symbol ("symex::nondet" ++ natToString s.var_map.nondet_count) false) [] ty)
        false := by
  rw [instantiate_node, is_symbol_member_index_other]
  · simp
  · exact fun i ssa h => ExprIdt.noConfusion h
  · exact fun c h => ExprIdt.noConfusion h
  · exact fun h => ExprIdt.noConfusion h



theorem c10_two_nondet_reads (cfg : Configt) (fuel : Nat) (s : Statet)
    (ops : List Exprt) (ty : Typet)
    (hmap : s.var_map.id_map = []) (hstates : s.var_states = [])
    (hty : ((follow ty).is_code || (follow ty).is_math_function) = false)
    (hsc : ∀ id, expand_structs_and_arrays cfg (fuel+1) (.mk (.symbol id false) [] ty) =
      .ok (.mk (.symbol id false) [] ty)) :
    ∃ σ1 s1 σ2 s2,
      instantiate_node cfg (fuel+3) s (.mk (.side_effect "nondet") ops ty) false =
        .ok (some σ1, s1) ∧
      instantiate_node cfg (fuel+3) s1 (.mk (.side_effect "nondet") ops ty) false =
        .ok (some σ2, s2) ∧
      σ1 ≠ σ2 := by
  set c := s.var_map.nondet_count with hc
  set name1 := "symex::nondet" ++ natToString c with hname1
  set name2 := "symex::nondet" ++ natToString (c+1) with hname2
  set sym1 : Exprt := .mk (.symbol name1 false) [] ty with hsym1
  set sym2 : Exprt := .mk (.symbol name2 false) [] ty with hsym2
  set s' : Statet :=
    { s with var_map :=
        { s.var_map with
            nondet_count := c + 1
            new_symbols := s.var_map.new_symbols ++ [(name1, ty)] } } with hs'
  set vi1 : VarInfot :=
    { kind := cfg.classify name1, number := 0, full_identifier := name1,
      symbol := name1, suffix := "", original := sym1, ssa_counter := 0 } with hvi1
  set vm1 : VarMapt := { s'.var_map with id_map := [(name1, vi1)] } with hvm1def
  have hvm : var_map_apply cfg s'.var_map name1 "" sym1 = (vi1, vm1) := by
    simp [var_map_apply, hmap, assoc_find, hs', hvi1, hvm1def]
  have hvs1 : get_var_state { s' with var_map := vm1 } vi1.number = ⟨none, none⟩ := by
    simp [get_var_state, hstates, hs', assoc_find]
  have key1 := rsmi_scalar_tail cfg (fuel+1) s' sym1 false name1 "" vi1 vm1
    ⟨none, none⟩ (by simpa [hsym1] using hty) rfl (hsc name1) rfl
    (array_theory_not_index cfg fuel s' sym1 false (by simp [hsym1]))
    (by simp [hsym1]) (by simp [hsym1])
    (rsmi_suffix_walk_symbol cfg fuel s' name1 ty [] "" false) hvm hvs1
  simp only [Bool.false_and, Bool.false_eq_true, if_false, Option.isSome_none] at key1
  set σ1 := vi1.ssa_symbol with hσ1
  set s1 := set_var_state { s' with var_map := vm1 } vi1.number ⟨none, some σ1⟩ with hs1
  have first : instantiate_node cfg (fuel+3) s (.mk (.side_effect "nondet") ops ty) false =
      .ok (some σ1, s1) :=
    (instantiate_node_nondet cfg (fuel+2) s ops ty false).trans key1
  -- second read
  have hkeys : ¬ (name1 = name2) := by
    intro h
    have := append_natToString_inj "symex::nondet" c (c+1) h
    omega
  set s1' : Statet :=
    { s1 with var_map :=
        { s1.var_map with
            nondet_count := s1.var_map.nondet_count + 1
            new_symbols := s1.var_map.new_symbols ++ [(name2, ty)] } } with hs1'
  set vi2 : VarInfot :=
    { kind := cfg.classify name2, number := 1, full_identifier := name2,
      symbol := name2, suffix := "", original := sym2, ssa_counter := 0 } with hvi2
  set vm2 : VarMapt :=
    { s1'.var_map with id_map := [(name1, vi1), (name2, vi2)] } with hvm2def
  have hvm2 : var_map_apply cfg s1'.var_map name2 "" sym2 = (vi2, vm2) := by
    simp [var_map_apply, assoc_find, hs1', hs1, set_var_state, hvm1def, hs',
      hkeys, hvi2, hvm2def, hmap]
  have hvs2 : get_var_state { s1' with var_map := vm2 } vi2.number = ⟨none, none⟩ := by
    simp [get_var_state, hs1', hs1, set_var_state, assoc_set, hstates, assoc_find, hvi2]
  have key2 := rsmi_scalar_tail cfg (fuel+1) s1' sym2 false name2 "" vi2 vm2
    ⟨none, none⟩ (by simpa [hsym2] using hty) rfl (hsc name2) rfl
    (array_theory_not_index cfg fuel s1' sym2 false (by simp [hsym2]))
    (by simp [hsym2]) (by simp [hsym2])
    (rsmi_suffix_walk_symbol cfg fuel s1' name2 ty [] "" false) hvm2 hvs2
  simp only [Bool.false_and, Bool.false_eq_true, if_false, Option.isSome_none] at key2
  have second : instantiate_node cfg (fuel+3) s1 (.mk (.side_effect "nondet") ops ty) false =
      .ok (some vi2.ssa_symbol,
        set_var_state { s1' with var_map := vm2 } vi2.number ⟨none, some vi2.ssa_symbol⟩) :=
    (instantiate_node_nondet cfg (fuel+2) s1 ops ty false).trans key2
  refine ⟨σ1, s1, vi2.ssa_symbol, _, first, second, ?_⟩
  intro h
  rw [hσ1] at h
  simp only [hvi1, hvi2, VarInfot.ssa_symbol, VarInfot.ssa_identifier,
    Exprt.mk.injEq, ExprIdt.symbol.injEq] at h
  have hname : name1 ++ "#" ++ natToString 0 = name2 ++ "#" ++ natToString 0 := h.1.1
  have h2 := string_append_right_inj _ _ _ hname
  have h3 := string_append_right_inj _ _ _ h2
  exact hkeys h3

/-- Claim C10 (confirmed): the three auxiliary-symbol mint sites of
`instantiate_node` — nondeterministic inputs (`symex::nondet`),
integer dereferences and dereference-failure markers (`symex::deref`)
— all draw from the single shared `nondet_count`, incrementing it on
every mint; names minted at different counter values (or with the two
different prefixes) are pairwise distinct; and two reads of a
nondeterministic-input expression yield two distinct symbols. -/
theorem c10_aux_distinct (cfg : Configt) (fuel : Nat) (s : Statet)
    (ops : List Exprt) (ty : Typet)
    (hmap : s.var_map.id_map = []) (hstates : s.var_states = [])
    (hty : ((follow ty).is_code || (follow ty).is_math_function) = false)
    (hsc : ∀ id, expand_structs_and_arrays cfg (fuel+1) (.mk (.symbol id false) [] ty) =
      .ok (.mk (.symbol id false) [] ty)) :
    (∀ (s0 : Statet) (ops0 : List Exprt) (ty0 : Typet) (p0 : Bool),
      instantiate_node cfg (fuel+1) s0 (.mk (.side_effect "nondet") ops0 ty0) p0 =
        read_symbol_member_index cfg fuel
          { s0 with var_map :=
              { s0.var_map with
                  nondet_count := s0.var_map.nondet_count + 1
                  new_symbols := s0.var_map.new_symbols ++
                    [("symex::nondet" ++ natToString s0.var_map.nondet_count, ty0)] } }
          (.mk (.symbol ("symex::nondet" ++ natToString s0.var_map.nondet_count) false) [] ty0)
          false ∧
      instantiate_node cfg (fuel+1) s0 (.mk .integer_dereference ops0 ty0) p0 =
        .ok (some (.mk (.symbol ("symex::deref" ++ natToString s0.var_map.nondet_count) false) [] ty0),
          { s0 with var_map :=
              { s0.var_map with
                  nondet_count := s0.var_map.nondet_count + 1
                  new_symbols := s0.var_map.new_symbols ++
                    [("symex::deref" ++ natToString s0.var_map.nondet_count, ty0)] } }) ∧
      instantiate_node cfg (fuel+1) s0 (.mk .dereference_failure ops0 ty0) p0 =
        .ok (some (.mk (.symbol ("symex::deref" ++ natToString s0.var_map.nondet_count) false) [] ty0),
          { s0 with var_map :=
              { s0.var_map with
                  nondet_count := s0.var_map.nondet_count + 1
                  new_symbols := s0.var_map.new_symbols ++
                    [("symex::deref" ++ natToString s0.var_map.nondet_count, ty0)] } })) ∧
    (∀ c c', c ≠ c' →
      "symex::nondet" ++ natToString c ≠ "symex::nondet" ++ natToString c' ∧
      "symex::deref" ++ natToString c ≠ "symex::deref" ++ natToString c') ∧
    (∀ c c', "symex::nondet" ++ natToString c ≠ "symex::deref" ++ natToString c') ∧
    (∃ σ1 s1 σ2 s2,
      instantiate_node cfg (fuel+3) s (.mk (.side_effect "nondet") ops ty) false =
        .ok (some σ1, s1) ∧
      instantiate_node cfg (fuel+3) s1 (.mk (.side_effect "nondet") ops ty) false =
        .ok (some σ2, s2) ∧
      σ1 ≠ σ2) := by
  refine ⟨?_, ?_, ?_, c10_two_nondet_reads cfg fuel s ops ty hmap hstates hty hsc⟩
  · intro s0 ops0 ty0 p0
    refine ⟨instantiate_node_nondet cfg fuel s0 ops0 ty0 p0, ?_, ?_⟩ <;>
      · rw [instantiate_node, is_symbol_member_index_other]
        all_goals simp
        all_goals try rfl
  · intro c c' hne
    constructor <;>
      exact fun h => hne (append_natToString_inj _ c c' h)
  · intro c c'
    exact nondet_name_ne_deref_name c c'

/-- Witness for C10 at the initial state with a 32-bit scalar type:
two nondeterministic reads produce two distinct fresh symbols. -/
theorem c10_witness :
    ∃ σ1 s1 σ2 s2,
      instantiate_node defaultConfig 6 initState
          (.mk (.side_effect "nondet") [] (.signedbv 32)) false = .ok (some σ1, s1) ∧
      instantiate_node defaultConfig 6 s1
          (.mk (.side_effect "nondet") [] (.signedbv 32)) false = .ok (some σ2, s2) ∧
      σ1 ≠ σ2 :=
  (c10_aux_distinct defaultConfig 3 initState [] (.signedbv 32) rfl rfl rfl
    (fun _ => rfl)).2.2.2

end PathSymex

namespace PathSymex

/-! C9 development -/

mutual

/-- Type well-formedness for decomposition: no function types hidden
inside composite types that the Structural Decomposer can open. -/
def wfT : Typet → Bool
  | .structT comps => wfComps comps
  | .arrayT sub _ => !sub.is_code && !sub.is_math_function && wfT sub
  | .vectorT sub _ => !sub.is_code && !sub.is_math_function && wfT sub
  | _ => true

def wfComps : List (String × Typet) → Bool
  | [] => true
  | (_, t) :: rest => !t.is_code && !t.is_math_function && wfT t && wfComps rest

end

mutual

/-- Every node of the expression carries a well-formed type. -/
def wfExpr : Exprt → Bool
  | .mk _ ops t => wfT t && wfOps ops

def wfOps : List Exprt → Bool
  | [] => true
  | e :: rest => wfExpr e && wfOps rest

end

/-- A constructor node is only safe for re-decomposition when its id
agrees with its (followed) composite type, since the decomposer
dispatches on the type but tests the id. -/
def ctor_type_ok (eid : ExprIdt) (ty : Typet) : Prop :=
  match follow ty with
  | .structT _ => eid = .structE
  | .arrayT _ (.const _) => eid = .arrayE
  | .vectorT _ (.const _) => eid = .vectorE
  | _ => True

/-- The class of expressions on which the resolver is total: accepted
symbol/member/index chains with well-formed types, and constructor
nodes (as produced by the decomposer) of such. -/
inductive Good : Exprt → Prop where
  | chain (e : Exprt) (h1 : is_symbol_member_index e = true)
      (h2 : wfExpr e = true) : Good e
  | ctor (eid : ExprIdt) (ops : List Exprt) (ty : Typet)
      (heid : eid = .structE ∨ eid = .arrayE ∨ eid = .vectorE)
      (hty : (follow ty).is_code = false ∧ (follow ty).is_math_function = false)
      (hmatch : ctor_type_ok eid ty)
      (hops : ∀ op ∈ ops, Good op) : Good (.mk eid ops ty)

/-- The two failure modes claim C9 rules out: the unchecked
`optionalt::value()` abort and the `instantiate_node` assertion. -/
def NoBad {α : Type} (x : Except String α) : Prop :=
  x ≠ .error "optional has no value" ∧
  x ≠ .error "assert: tmp_symbol_member_index.has_value()"

theorem noBad_out_of_fuel {α : Type} : NoBad (.error "out of fuel" : Except String α) :=
  ⟨by simp, by simp⟩

theorem noBad_ok {α : Type} (a : α) : NoBad (.ok a : Except String α) :=
  ⟨by simp, by simp⟩

@[simp] theorem except_bind_error {α β : Type} (msg : String)
    (f : α → Except String β) :
    (Except.error msg >>= f : Except String β) = .error msg := rfl

@[simp] theorem except_bind_ok {α β : Type} (a : α) (f : α → Except String β) :
    (Except.ok a >>= f : Except String β) = f a := rfl

@[simp] theorem except_pure_eq {α : Type} (a : α) :
    (pure a : Except String α) = .ok a := rfl

/-- A propagated error keeps its message, so badness transports across
result types. -/
theorem noBad_error_cast {α β : Type} {msg : String}
    (h : NoBad (.error msg : Except String α)) :
    NoBad (.error msg : Except String β) := by
  refine ⟨fun he => ?_, fun he => ?_⟩
  · injection he with h1
    exact h.1 (by rw [h1])
  · injection he with h1
    exact h.2 (by rw [h1])

end PathSymex

namespace PathSymex

@[simp] theorem wfExpr_mk (i : ExprIdt) (ops : List Exprt) (t : Typet) :
    wfExpr (.mk i ops t) = (wfT t && wfOps ops) := by
  rw [wfExpr]

theorem wfOps_mem {ops : List Exprt} (h : wfOps ops = true) :
    ∀ e ∈ ops, wfExpr e = true := by
  induction ops with
  | nil => intro e he; exact absurd he (by simp)
  | cons a rest ih =>
      rw [wfOps, Bool.and_eq_true] at h
      intro e he
      rcases List.mem_cons.mp he with he | he
      · exact he ▸ h.1
      · exact ih h.2 e he

theorem wf_default : wfExpr default = true := rfl

theorem wf_getD {ops : List Exprt} (h : wfOps ops = true) (i : Nat) :
    wfExpr (ops.getD i default) = true := by
  by_cases hi : i < ops.length
  · rw [List.getD_eq_getElem _ _ hi]
    exact wfOps_mem h _ (List.getElem_mem hi)
  · rw [List.getD_eq_default _ _ (by omega)]
    exact wf_default

theorem wfComps_mem {comps : List (String × Typet)} (h : wfComps comps = true) :
    ∀ p ∈ comps, (!p.2.is_code && !p.2.is_math_function && wfT p.2) = true := by
  induction comps with
  | nil => intro p hp; exact absurd hp (by simp)
  | cons a rest ih =>
      rcases a with ⟨n, t⟩
      rw [wfComps] at h
      simp only [Bool.and_eq_true] at h
      intro p hp
      rcases List.mem_cons.mp hp with hp | hp
      · subst hp
        simp [h.1.1.1, h.1.1.2, h.1.2]
      · exact ih h.2 p hp

theorem ismi_type (e : Exprt) (h : is_symbol_member_index e = true) :
    (follow e.type).is_code = false ∧ (follow e.type).is_math_function = false := by
  unfold is_symbol_member_index at h
  by_cases hc : (e.type.is_code || e.type.is_math_function) = true
  · rw [if_pos hc] at h
    exact absurd h (by simp)
  · simp only [Bool.or_eq_true, not_or, Bool.not_eq_true] at hc
    exact ⟨hc.1, hc.2⟩

theorem ismi_loop_of_ismi (e : Exprt) (h : is_symbol_member_index e = true) :
    ismi_loop e = true := by
  unfold is_symbol_member_index at h
  by_cases hc : (e.type.is_code || e.type.is_math_function) = true
  · rw [if_pos hc] at h
    exact absurd h (by simp)
  · rwa [if_neg hc] at h

theorem good_ctor_ops {eid : ExprIdt} {ops : List Exprt} {ty : Typet}
    (h : Good (.mk eid ops ty))
    (heid : eid = .structE ∨ eid = .arrayE ∨ eid = .vectorE) :
    ∀ op ∈ ops, Good op := by
  cases h with
  | chain _ h1 h2 =>
      have hloop := ismi_loop_of_ismi _ h1
      rcases heid with h | h | h <;>
        · subst h
          rw [ismi_loop_other] at hloop
          · exact absurd hloop (by simp)
          · exact fun i ssa h => ExprIdt.noConfusion h
          · exact fun c h => ExprIdt.noConfusion h
          · exact fun h => ExprIdt.noConfusion h
  | ctor _ _ _ _ _ _ hops => exact hops

theorem good_type {eid : ExprIdt} {ops : List Exprt} {ty : Typet}
    (h : Good (.mk eid ops ty)) :
    (follow ty).is_code = false ∧ (follow ty).is_math_function = false := by
  cases h with
  | chain _ h1 h2 => exact ismi_type _ h1
  | ctor _ _ _ _ hty _ _ => exact hty

theorem wfExpr_type {e : Exprt} (h : wfExpr e = true) : wfT e.type = true := by
  rcases e with ⟨i, ops, t⟩
  rw [wfExpr, Bool.and_eq_true] at h
  exact h.1

theorem wf_cond_add_cases (idx arr : Exprt) (sub : Typet)
    (hidx : wfExpr idx = true) (harr : wfExpr arr = true)
    (hsub : wfT sub = true) :
    ∀ l : List Nat, wfOps (cond_add_cases idx arr sub l) = true := by
  intro l
  induction l with
  | nil => rfl
  | cons i rest ih =>
      rw [cond_add_cases]
      rw [wfOps, wfOps]
      simp [hidx, harr, hsub, ih, wfT, wfOps, wfExpr_type hidx]

end PathSymex

namespace PathSymex

/-- The collaborator contracts claim C9 needs: the simplifier turns a
constant index into a decomposed constructor into a resolvable
expression, and the two pointer oracles emit well-formed expressions. -/
structure C9Hyps (cfg : Configt) : Prop where
  simp_good : ∀ (e : Exprt) (i : Nat) (sub : Typet), Good e →
    (e.eid = .arrayE ∨ e.eid = .vectorE) →
    Good (cfg.simplify (.mk .indexE [e, .mk (.constant (Int.ofNat i)) [] size_type] sub))
  deref_wf : ∀ x, wfExpr (cfg.symex_dereference x) = true
  addr_wf : ∀ x, wfExpr (cfg.evaluate_address_of x) = true

/-- The simultaneous induction statement for claim C9 over the whole
mutually recursive cluster at a given fuel. -/
structure C9P (cfg : Configt) (fuel : Nat) : Prop where
  rsmiP : ∀ s src p, Good src →
    (∀ s', read_symbol_member_index cfg fuel s src p ≠ .ok (none, s')) ∧
    NoBad (read_symbol_member_index cfg fuel s src p)
  inodeP : ∀ s src p, wfExpr src = true → NoBad (instantiate_node cfg fuel s src p)
  irecP : ∀ s src p, wfExpr src = true → NoBad (instantiate_rec cfg fuel s src p)
  iopsP : ∀ s ops p, wfOps ops = true → NoBad (instantiate_ops cfg fuel s ops p)
  readP : ∀ s src p, wfExpr src = true → NoBad (read cfg fuel s src p)
  derefP : ∀ s src p, wfExpr src = true →
    NoBad (dereference_rec cfg fuel s src p) ∧
    (∀ e s', dereference_rec cfg fuel s src p = .ok (e, s') → wfExpr e = true)
  derefopsP : ∀ s ops p, wfOps ops = true →
    NoBad (dereference_ops cfg fuel s ops p) ∧
    (∀ l s', dereference_ops cfg fuel s ops p = .ok (l, s') → wfOps l = true)
  expandP : ∀ src f, Good src → expand_structs_and_arrays cfg fuel src = .ok f →
    Good f ∧ (f.eid ≠ .structE → f.eid ≠ .arrayE → f.eid ≠ .vectorE → f = src)
  exlistP : ∀ ops ops', (∀ op ∈ ops, Good op) →
    expand_list cfg fuel ops = .ok ops' → ∀ op ∈ ops', Good op
  exmembersP : ∀ src comps ops', is_symbol_member_index src = true →
    wfExpr src = true → (follow src.type).is_struct = true → wfComps comps = true →
    expand_members cfg fuel src comps = .ok ops' → ∀ op ∈ ops', Good op
  exelemsP : ∀ src sub ctorId l ops', Good src →
    ((src.eid = ctorId ∧ (ctorId = .arrayE ∨ ctorId = .vectorE)) ∨
     (is_symbol_member_index src = true ∧ wfExpr src = true ∧
      sub.is_code = false ∧ sub.is_math_function = false ∧ wfT sub = true ∧
      src.eid ≠ ctorId)) →
    expand_elems cfg fuel src sub ctorId l = .ok ops' → ∀ op ∈ ops', Good op
  artP : ∀ s src p, wfExpr src = true →
    NoBad (array_theory cfg fuel s src p) ∧
    (∀ x s', array_theory cfg fuel s src p = .ok (x, s') →
      x = src ∨ (x.eid = .condE ∧ wfExpr x = true))
  walkP : ∀ s cur sfx p, ismi_loop cur = true → wfExpr cur = true →
    NoBad (rsmi_suffix_walk cfg fuel s cur sfx p) ∧
    (∀ s', rsmi_suffix_walk cfg fuel s cur sfx p ≠ .ok (none, s'))
  rsmiopsP : ∀ s ops p, (∀ op ∈ ops, Good op) → NoBad (rsmi_ops cfg fuel s ops p)

theorem c9p_zero (cfg : Configt) : C9P cfg 0 := by
  refine { rsmiP := ?_, inodeP := ?_, irecP := ?_, iopsP := ?_, readP := ?_,
           derefP := ?_, derefopsP := ?_, expandP := ?_, exlistP := ?_,
           exmembersP := ?_, exelemsP := ?_, artP := ?_, walkP := ?_, rsmiopsP := ?_ }
  · exact fun s src p _ => ⟨fun s' h => Except.noConfusion h, noBad_out_of_fuel⟩
  · exact fun s src p _ => noBad_out_of_fuel
  · exact fun s src p _ => noBad_out_of_fuel
  · exact fun s ops p _ => noBad_out_of_fuel
  · exact fun s src p _ => noBad_out_of_fuel
  · exact fun s src p _ => ⟨noBad_out_of_fuel, fun e s' h => Except.noConfusion h⟩
  · exact fun s ops p _ => ⟨noBad_out_of_fuel, fun l s' h => Except.noConfusion h⟩
  · exact fun src f _ h => absurd h (fun hh => Except.noConfusion hh)
  · exact fun ops ops' _ h => absurd h (fun hh => Except.noConfusion hh)
  · exact fun src comps ops' _ _ _ _ h => absurd h (fun hh => Except.noConfusion hh)
  · exact fun src sub ctorId l ops' _ _ h => absurd h (fun hh => Except.noConfusion hh)
  · exact fun s src p _ => ⟨noBad_out_of_fuel, fun x s' h => Except.noConfusion h⟩
  · exact fun s cur sfx p _ _ => ⟨noBad_out_of_fuel, fun s' h => Except.noConfusion h⟩
  · exact fun s ops p _ => noBad_out_of_fuel
end PathSymex

namespace PathSymex

theorem step_walk (cfg : Configt) (fuel : Nat) (ih : C9P cfg fuel) :
    ∀ s cur sfx p, ismi_loop cur = true → wfExpr cur = true →
    NoBad (rsmi_suffix_walk cfg (fuel+1) s cur sfx p) ∧
    (∀ s', rsmi_suffix_walk cfg (fuel+1) s cur sfx p ≠ .ok (none, s')) := by
  intro s cur sfx p hloop hwf
  rcases cur with ⟨eid, ops, ty⟩
  rw [wfExpr, Bool.and_eq_true] at hwf
  cases eid with
  | symbol id ssa =>
      have hssa : ssa = false := by
        rw [ismi_loop] at hloop
        simpa using hloop
      subst hssa
      rw [rsmi_suffix_walk]
      exact ⟨noBad_ok _, fun s' h => by simp at h⟩

  | member comp =>
      rcases ops with _ | ⟨op, rest⟩
      · simp [ismi_loop] at hloop
      · rw [ismi_loop] at hloop
        by_cases hst : (follow op.type).is_struct = true
        · rw [if_pos hst] at hloop
          have hwfop : wfExpr op = true := wfOps_mem hwf.2 op (by simp)
          rw [rsmi_suffix_walk]
          simp only [Exprt.eid_mk, Exprt.operands_mk, List.getD_cons_zero, hst, if_true]
          exact ih.walkP s op ("." ++ comp ++ sfx) p hloop hwfop
        · rw [if_neg hst] at hloop
          exact absurd hloop (by simp)
  | indexE =>
      rcases ops with _ | ⟨arr, rest⟩
      · simp [ismi_loop] at hloop
      · rw [ismi_loop] at hloop
        have hwfarr : wfExpr arr = true := wfOps_mem hwf.2 arr (by simp)
        have hwfidx : wfExpr ((arr :: rest).getD 1 default) = true := wf_getD hwf.2 1
        rw [rsmi_suffix_walk]
        simp only [Exprt.eid_mk, Exprt.operands_mk, List.getD_cons_zero]
        rcases hread : read cfg fuel s ((arr :: rest).getD 1 default) p with msg | ⟨it, s2⟩
        · have hnb := ih.readP s ((arr :: rest).getD 1 default) p hwfidx
          rw [hread] at hnb
          constructor
          · simp only [except_bind_error]
            exact noBad_error_cast hnb
          · intro s' h
            exact Except.noConfusion h
        · exact ih.walkP s2 arr _ p hloop hwfarr
  | constant v =>
      rw [ismi_loop_other] at hloop
      · exact absurd hloop (by simp)
      all_goals simp
  | structE =>
      rw [ismi_loop_other] at hloop
      · exact absurd hloop (by simp)
      all_goals simp
  | _ =>
      rw [ismi_loop_other] at hloop
      · exact absurd hloop (by simp)
      all_goals simp

end PathSymex

namespace PathSymex

theorem step_derefops (cfg : Configt) (fuel : Nat) (ih : C9P cfg fuel) :
    ∀ s ops p, wfOps ops = true →
    NoBad (dereference_ops cfg (fuel+1) s ops p) ∧
    (∀ l s', dereference_ops cfg (fuel+1) s ops p = .ok (l, s') → wfOps l = true) := by
  intro s ops p hwf
  rcases ops with _ | ⟨op, rest⟩
  · rw [dereference_ops]
    exact ⟨noBad_ok _, fun l s' h => by injection h with h1; injection h1 with h2 h3; rw [← h2]; rfl⟩
  · rw [wfOps, Bool.and_eq_true] at hwf
    rw [dereference_ops]
    rcases hd : dereference_rec cfg fuel s op p with msg | ⟨op', s1⟩
    · have hnb := (ih.derefP s op p hwf.1).1
      rw [hd] at hnb
      simp only [except_bind_error]
      exact ⟨noBad_error_cast hnb, fun l s' h => by injection h⟩
    · have hwfop : wfExpr op' = true := (ih.derefP s op p hwf.1).2 op' s1 hd
      simp only [except_bind_ok]
      rcases hrest : dereference_ops cfg fuel s1 rest p with msg | ⟨l', s2⟩
      · have hnb := (ih.derefopsP s1 rest p hwf.2).1
        rw [hrest] at hnb
        exact ⟨hnb, fun l s' h => by injection h⟩
      · have hwfl : wfOps l' = true := (ih.derefopsP s1 rest p hwf.2).2 l' s2 hrest
        refine ⟨noBad_ok _, ?_⟩
        intro l s' h
        simp only [except_pure_eq] at h
        injection h with h1
        injection h1 with h2 h3
        rw [← h2, wfOps, Bool.and_eq_true]
        exact ⟨hwfop, hwfl⟩

theorem step_deref (cfg : Configt) (hcfg : C9Hyps cfg) (fuel : Nat) (ih : C9P cfg fuel) :
    ∀ s src p, wfExpr src = true →
    NoBad (dereference_rec cfg (fuel+1) s src p) ∧
    (∀ e s', dereference_rec cfg (fuel+1) s src p = .ok (e, s') → wfExpr e = true) := by
  intro s src p hwf
  rcases src with ⟨eid, ops, ty⟩
  rw [wfExpr, Bool.and_eq_true] at hwf
  cases eid
  case dereference =>
      rw [dereference_rec]
      simp only [Exprt.eid_mk, Exprt.operands_mk]
      rcases hr : read cfg fuel s (ops.getD 0 default) p with msg | ⟨addr, s1⟩
      · have hnb := ih.readP s (ops.getD 0 default) p (wf_getD hwf.2 0)
        rw [hr] at hnb
        simp only [except_bind_error]
        exact ⟨noBad_error_cast hnb, fun e s' h => by injection h⟩
      · simp only [except_bind_ok, except_pure_eq]
        refine ⟨noBad_ok _, ?_⟩
        intro e s' h
        injection h with h1
        injection h1 with h2 h3
        rw [← h2]
        exact hcfg.deref_wf addr
  case address_of =>
      rw [dereference_rec]
      refine ⟨noBad_ok _, ?_⟩
      intro e s' h
      simp only [except_pure_eq] at h
      injection h with h1
      injection h1 with h2 h3
      rw [← h2]
      exact hcfg.addr_wf _
  all_goals
    rw [dereference_rec]
    rcases ops with _ | ⟨o, os⟩
  all_goals try
    exact ⟨noBad_ok _, fun e s' h => by
      simp only [except_pure_eq] at h
      injection h with h1
      injection h1 with h2 h3
      rw [← h2, wfExpr, Bool.and_eq_true]
      exact ⟨hwf.1, rfl⟩⟩
  all_goals
    (simp only [Exprt.eid_mk, Exprt.operands_mk, Exprt.has_operands, List.isEmpty,
       Bool.not_false, Bool.not_true, if_false]
     rcases hops : dereference_ops cfg fuel s (o :: os) p with msg | ⟨l, s2⟩
     · have hnb := (ih.derefopsP s (o :: os) p hwf.2).1
       rw [hops] at hnb
       simp only [except_bind_error]
       exact ⟨noBad_error_cast hnb, fun e s' h => by injection h⟩
     · have hwfl := (ih.derefopsP s (o :: os) p hwf.2).2 l s2 hops
       simp only [except_bind_ok, except_pure_eq]
       refine ⟨noBad_ok _, ?_⟩
       intro e s' h
       injection h with h1
       injection h1 with h2 h3
       rw [← h2]
       simp only [Exprt.withOperands_mk, wfExpr, Bool.and_eq_true]
       exact ⟨hwf.1, hwfl⟩)

end PathSymex

namespace PathSymex

theorem noBad_error_of_ne {α : Type} (msg : String)
    (h1 : msg ≠ "optional has no value")
    (h2 : msg ≠ "assert: tmp_symbol_member_index.has_value()") :
    NoBad (.error msg : Except String α) :=
  ⟨fun h => h1 (by injection h), fun h => h2 (by injection h)⟩

theorem noBad_unexpected_side_effect {α : Type} (statement : String) :
    NoBad (.error ("instantiate_rec: unexpected side effect " ++ statement) :
      Except String α) := by
  constructor <;>
    · intro h
      injection h with h1
      have h2 := congrArg (fun s : String => s.data.headD ' ') h1
      simp only [String.data_append, List.cons_append, List.headD_cons] at h2
      exact absurd h2 (by decide)

theorem step_read (cfg : Configt) (fuel : Nat) (ih : C9P cfg fuel) :
    ∀ s src p, wfExpr src = true → NoBad (read cfg (fuel+1) s src p) := by
  intro s src p hwf
  rw [read]
  rcases hd : dereference_rec cfg fuel s src true with msg | ⟨t3, s1⟩
  · have hnb := (ih.derefP s src true hwf).1
    rw [hd] at hnb
    simp only [except_bind_error]
    exact noBad_error_cast hnb
  · have hwf3 := (ih.derefP s src true hwf).2 t3 s1 hd
    simp only [except_bind_ok]
    rcases hi : instantiate_rec cfg fuel s1 t3 p with msg | ⟨t4, s2⟩
    · have hnb := ih.irecP s1 t3 p hwf3
      rw [hi] at hnb
      simp only [except_bind_error]
      exact noBad_error_cast hnb
    · simp only [except_bind_ok, except_pure_eq]
      exact noBad_ok _

theorem step_iops (cfg : Configt) (fuel : Nat) (ih : C9P cfg fuel) :
    ∀ s ops p, wfOps ops = true → NoBad (instantiate_ops cfg (fuel+1) s ops p) := by
  intro s ops p hwf
  rcases ops with _ | ⟨op, rest⟩
  · rw [instantiate_ops]
    exact noBad_ok _
  · rw [wfOps, Bool.and_eq_true] at hwf
    rw [instantiate_ops]
    rcases hrest : instantiate_ops cfg fuel s rest p with msg | ⟨rest', s1⟩
    · have hnb := ih.iopsP s rest p hwf.2
      rw [hrest] at hnb
      simp only [except_bind_error]
      exact noBad_error_cast hnb
    · simp only [except_bind_ok]
      rcases hop : instantiate_rec cfg fuel s1 op p with msg | ⟨op', s2⟩
      · have hnb := ih.irecP s1 op p hwf.1
        rw [hop] at hnb
        simp only [except_bind_error]
        exact noBad_error_cast hnb
      · simp only [except_bind_ok, except_pure_eq]
        exact noBad_ok _

theorem step_irec (cfg : Configt) (fuel : Nat) (ih : C9P cfg fuel) :
    ∀ s src p, wfExpr src = true → NoBad (instantiate_rec cfg (fuel+1) s src p) := by
  intro s src p hwf
  rw [instantiate_rec]
  rcases hn : instantiate_node cfg fuel s src p with msg | ⟨res, s1⟩
  · have hnb := ih.inodeP s src p hwf
    rw [hn] at hnb
    simp only [except_bind_error]
    exact noBad_error_cast hnb
  · simp only [except_bind_ok]
    rcases res with _ | r
    · by_cases hop : src.has_operands = true
      · rw [if_pos hop]
        rcases src with ⟨eid, ops, ty⟩
        rw [wfExpr, Bool.and_eq_true] at hwf
        simp only [Exprt.operands_mk, Exprt.withOperands_mk]
        rcases hops : instantiate_ops cfg fuel s1 ops p with msg | ⟨ops', s2⟩
        · have hnb := ih.iopsP s1 ops p hwf.2
          rw [hops] at hnb
          simp only [except_bind_error]
          exact noBad_error_cast hnb
        · simp only [except_bind_ok, except_pure_eq]
          exact noBad_ok _
      · rw [if_neg hop]
        exact noBad_ok _
    · exact noBad_ok _

theorem step_rsmiops (cfg : Configt) (fuel : Nat) (ih : C9P cfg fuel) :
    ∀ s ops p, (∀ op ∈ ops, Good op) → NoBad (rsmi_ops cfg (fuel+1) s ops p) := by
  intro s ops p hgood
  rcases ops with _ | ⟨op, rest⟩
  · rw [rsmi_ops]
    exact noBad_ok _
  · rw [rsmi_ops]
    rcases hr : read_symbol_member_index cfg fuel s op p with msg | ⟨ropt, s1⟩
    · have hnb := (ih.rsmiP s op p (hgood op (by simp))).2
      rw [hr] at hnb
      simp only [except_bind_error]
      exact noBad_error_cast hnb
    · simp only [except_bind_ok]
      rcases ropt with _ | v
      · exact absurd hr ((ih.rsmiP s op p (hgood op (by simp))).1 s1)
      · simp only [opt_value, except_bind_ok]
        rcases hrest : rsmi_ops cfg fuel s1 rest p with msg | ⟨rest', s2⟩
        · have hnb := ih.rsmiopsP s1 rest p (fun o ho => hgood o (by simp [ho]))
          rw [hrest] at hnb
          simp only [except_bind_error]
          exact noBad_error_cast hnb
        · simp only [except_bind_ok, except_pure_eq]
          exact noBad_ok _

end PathSymex

namespace PathSymex

theorem step_inode (cfg : Configt) (fuel : Nat) (ih : C9P cfg fuel) :
    ∀ s src p, wfExpr src = true → NoBad (instantiate_node cfg (fuel+1) s src p) := by
  intro s src p hwf
  rw [instantiate_node]
  by_cases hismi : is_symbol_member_index src = true
  · rw [if_pos hismi]
    rcases hr : read_symbol_member_index cfg fuel s src p with msg | ⟨res, s1⟩
    · have hnb := (ih.rsmiP s src p (Good.chain src hismi hwf)).2
      rw [hr] at hnb
      simp only [except_bind_error]
      exact noBad_error_cast hnb
    · simp only [except_bind_ok]
      rcases res with _ | v
      · exact absurd hr ((ih.rsmiP s src p (Good.chain src hismi hwf)).1 s1)
      · exact noBad_ok _
  · rw [if_neg hismi]
    rcases src with ⟨eid, ops, ty⟩
    rw [wfExpr, Bool.and_eq_true] at hwf
    cases eid with
    | side_effect statement =>
      simp only [Exprt.eid_mk, Exprt.type_mk]
      by_cases hst : statement = "nondet"
      · rw [if_pos hst]
        rcases fuel with _ | g
        · exact noBad_out_of_fuel
        · by_cases hty0 : ((follow ty).is_code || (follow ty).is_math_function) = true
          · rw [read_symbol_member_index]
            simp only [Exprt.type_mk]
            rw [if_pos hty0]
            exact noBad_ok _
          · have hismi2 : is_symbol_member_index
                (.mk (.symbol ("symex::nondet" ++ natToString s.var_map.nondet_count) false) [] ty) = true := by
              rw [is_symbol_member_index]
              simp only [Exprt.type_mk]
              rw [if_neg (by simpa using hty0)]
              rw [ismi_loop]
              rfl
            have hwf2 : wfExpr
                (.mk (.symbol ("symex::nondet" ++ natToString s.var_map.nondet_count) false) [] ty) = true := by
              rw [wfExpr, Bool.and_eq_true]
              exact ⟨hwf.1, rfl⟩
            exact (ih.rsmiP _ _ false (Good.chain _ hismi2 hwf2)).2
      · rw [if_neg hst]
        exact noBad_unexpected_side_effect statement
    | member comp =>
      simp only [Exprt.eid_mk, Exprt.operands_mk]
      by_cases h1 : (follow (ops.getD 0 default).type).is_struct = true
      · rw [if_pos h1]
        exact noBad_ok _
      · rw [if_neg h1]
        by_cases h2 : (follow (ops.getD 0 default).type).is_union = true
        · rw [if_pos h2]
          exact noBad_error_of_ne _ (by decide) (by decide)
        · rw [if_neg h2]
          exact noBad_error_of_ne _ (by decide) (by decide)
    | symbol id ssa =>
      simp only [Exprt.eid_mk, Exprt.type_mk]
      by_cases hc : (ty.is_code || ty.is_math_function || ssa) = true
      · rw [if_pos hc]
        exact noBad_ok _
      · rw [if_neg hc]
        exact noBad_error_of_ne _ (by decide) (by decide)
    | _ => exact noBad_ok _

theorem step_art (cfg : Configt) (fuel : Nat) (ih : C9P cfg fuel) :
    ∀ s src p, wfExpr src = true →
    NoBad (array_theory cfg (fuel+1) s src p) ∧
    (∀ x s', array_theory cfg (fuel+1) s src p = .ok (x, s') →
      x = src ∨ (x.eid = .condE ∧ wfExpr x = true)) := by
  intro s src p hwf
  rw [array_theory]
  rcases src with ⟨eid, ops, ty⟩
  have hwfc := hwf
  rw [wfExpr, Bool.and_eq_true] at hwfc
  cases eid
  case indexE =>
    simp only [Exprt.eid_mk, Exprt.operands_mk, Exprt.type_mk]
    split
    case h_1 sub size harrty =>
      by_cases hub : is_unbounded_array (ops.getD 0 default).type = true
      · rw [if_pos hub]
        exact ⟨noBad_ok _, fun x s' h => by
          simp only [except_pure_eq] at h
          injection h with h1
          injection h1 with h2 h3
          exact Or.inl h2.symm⟩
      · rw [if_neg hub]
        rcases hread : read cfg fuel s (ops.getD 1 default) p with msg | ⟨t1, s1⟩
        · have hnb := ih.readP s (ops.getD 1 default) p (wf_getD hwfc.2 1)
          rw [hread] at hnb
          simp only [except_bind_error]
          exact ⟨noBad_error_cast hnb, fun x s' h => by injection h⟩
        · simp only [except_bind_ok]
          by_cases hconst : (cfg.simplify t1).is_constant = true
          · rw [if_pos hconst]
            exact ⟨noBad_ok _, fun x s' h => by
              simp only [except_pure_eq] at h
              injection h with h1
              injection h1 with h2 h3
              exact Or.inl h2.symm⟩
          · rw [if_neg hconst]
            rcases size with n | _ | tag
            · simp only [numeric_cast_size]
              refine ⟨noBad_ok _, ?_⟩
              intro x s' h
              simp only [except_pure_eq] at h
              injection h with h1
              injection h1 with h2 h3
              refine Or.inr ⟨by rw [← h2]; rfl, ?_⟩
              rw [← h2, wfExpr, Bool.and_eq_true]
              refine ⟨hwfc.1, ?_⟩
              have hwfarr : wfExpr (ops.getD 0 default) = true := wf_getD hwfc.2 0
              have hsub := wfExpr_type hwfarr
              rw [harrty, wfT] at hsub
              simp only [Bool.and_eq_true] at hsub
              exact wf_cond_add_cases _ _ _ (wf_getD hwfc.2 1) hwfarr hsub.2 _
            · exact absurd (by rw [harrty]; rfl) hub
            · simp only [numeric_cast_size]
              exact ⟨noBad_error_of_ne _ (by decide) (by decide), fun x s' h => by injection h⟩
    case h_2 =>
      exact ⟨noBad_error_of_ne _ (by decide) (by decide), fun x s' h => by injection h⟩
  all_goals
    exact ⟨noBad_ok _, fun x s' h => by
      simp only [except_pure_eq] at h
      injection h with h1
      injection h1 with h2 h3
      exact Or.inl h2.symm⟩

theorem expand_noBad (cfg : Configt) : ∀ fuel : Nat,
    (∀ src, NoBad (expand_structs_and_arrays cfg fuel src)) ∧
    (∀ ops, NoBad (expand_list cfg fuel ops)) ∧
    (∀ src comps, NoBad (expand_members cfg fuel src comps)) ∧
    (∀ src sub cid l, NoBad (expand_elems cfg fuel src sub cid l)) := by
  intro fuel
  induction fuel with
  | zero =>
      exact ⟨fun _ => noBad_out_of_fuel, fun _ => noBad_out_of_fuel,
        fun _ _ => noBad_out_of_fuel, fun _ _ _ _ => noBad_out_of_fuel⟩
  | succ g ih =>
      obtain ⟨ihE, ihL, ihM, ihEl⟩ := ih
      refine ⟨?_, ?_, ?_, ?_⟩
      · intro src
        rw [expand_structs_and_arrays]
        split
        · split
          · split
            · rcases hL : expand_list cfg g src.operands with msg | ops
              · have hnb := ihL src.operands
                rw [hL] at hnb
                simp only [except_bind_error]
                exact noBad_error_cast hnb
              · simp only [except_bind_ok, except_pure_eq]
                exact noBad_ok _
            · exact noBad_error_of_ne _ (by decide) (by decide)
          · rename_i comps hty hne
            rcases hM : expand_members cfg g src comps with msg | ops
            · have hnb := ihM src comps
              rw [hM] at hnb
              simp only [except_bind_error]
              exact noBad_error_cast hnb
            · simp only [except_bind_ok, except_pure_eq]
              exact noBad_ok _
        · rename_i sub size hty
          split
          · split
            · exact noBad_error_of_ne _ (by decide) (by decide)
            · rename_i n hnc
              rcases hE : expand_elems cfg g src sub .arrayE (List.range n) with msg | ops
              · have hnb := ihEl src sub .arrayE (List.range n)
                rw [hE] at hnb
                simp only [except_bind_error]
                exact noBad_error_cast hnb
              · simp only [except_bind_ok, except_pure_eq]
                exact noBad_ok _
          · exact noBad_ok _
        · rename_i sub size hty
          split
          · exact noBad_error_of_ne _ (by decide) (by decide)
          · split
            · exact noBad_error_of_ne _ (by decide) (by decide)
            · rename_i n hnc
              rcases hE : expand_elems cfg g src sub .vectorE (List.range n) with msg | ops
              · have hnb := ihEl src sub .vectorE (List.range n)
                rw [hE] at hnb
                simp only [except_bind_error]
                exact noBad_error_cast hnb
              · simp only [except_bind_ok, except_pure_eq]
                exact noBad_ok _
        · exact noBad_ok _
      · intro ops
        rcases ops with _ | ⟨op, rest⟩
        · rw [expand_list]
          exact noBad_ok _
        · rw [expand_list]
          rcases hE : expand_structs_and_arrays cfg g op with msg | op'
          · have hnb := ihE op
            rw [hE] at hnb
            simp only [except_bind_error]
            exact noBad_error_cast hnb
          · simp only [except_bind_ok]
            rcases hL : expand_list cfg g rest with msg | rest'
            · have hnb := ihL rest
              rw [hL] at hnb
              simp only [except_bind_error]
              exact noBad_error_cast hnb
            · simp only [except_bind_ok, except_pure_eq]
              exact noBad_ok _
      · intro src comps
        rcases comps with _ | ⟨⟨nm, sub⟩, rest⟩
        · rw [expand_members]
          exact noBad_ok _
        · rw [expand_members]
          rcases hE : expand_structs_and_arrays cfg g (.mk (.member nm) [src] sub)
            with msg | op'
          · have hnb := ihE (.mk (.member nm) [src] sub)
            rw [hE] at hnb
            simp only [except_bind_error]
            exact noBad_error_cast hnb
          · simp only [except_bind_ok]
            rcases hM : expand_members cfg g src rest with msg | rest'
            · have hnb := ihM src rest
              rw [hM] at hnb
              simp only [except_bind_error]
              exact noBad_error_cast hnb
            · simp only [except_bind_ok, except_pure_eq]
              exact noBad_ok _
      · intro src sub cid l
        rcases l with _ | ⟨i, rest⟩
        · rw [expand_elems]
          exact noBad_ok _
        · rw [expand_elems]
          rcases hE : expand_structs_and_arrays cfg g
              (if src.eid = cid then
                cfg.simplify (.mk .indexE [src, .mk (.constant (Int.ofNat i)) [] size_type] sub)
              else .mk .indexE [src, .mk (.constant (Int.ofNat i)) [] size_type] sub)
            with msg | op'
          · have hnb := ihE (if src.eid = cid then
                cfg.simplify (.mk .indexE [src, .mk (.constant (Int.ofNat i)) [] size_type] sub)
              else .mk .indexE [src, .mk (.constant (Int.ofNat i)) [] size_type] sub)
            rw [hE] at hnb
            simp only [except_bind_error]
            exact noBad_error_cast hnb
          · simp only [except_bind_ok]
            rcases hEl : expand_elems cfg g src sub cid rest with msg | rest'
            · have hnb := ihEl src sub cid rest
              rw [hEl] at hnb
              simp only [except_bind_error]
              exact noBad_error_cast hnb
            · simp only [except_bind_ok, except_pure_eq]
              exact noBad_ok _

theorem step_exlist (cfg : Configt) (fuel : Nat) (ih : C9P cfg fuel) :
    ∀ ops ops', (∀ op ∈ ops, Good op) →
    expand_list cfg (fuel+1) ops = .ok ops' → ∀ op ∈ ops', Good op := by
  intro ops ops' hg hok
  rcases ops with _ | ⟨op, rest⟩
  · rw [expand_list] at hok
    simp only [except_pure_eq] at hok
    injection hok with h
    subst h
    intro x hx
    exact absurd hx (by simp)
  · rw [expand_list] at hok
    rcases hE : expand_structs_and_arrays cfg fuel op with msg | op'
    · rw [hE] at hok
      exact absurd hok (by simp)
    · rw [hE] at hok
      simp only [except_bind_ok] at hok
      rcases hL : expand_list cfg fuel rest with msg | rest'
      · rw [hL] at hok
        exact absurd hok (by simp)
      · rw [hL] at hok
        simp only [except_bind_ok, except_pure_eq] at hok
        injection hok with h
        subst h
        intro x hx
        rcases List.mem_cons.mp hx with hx | hx
        · rw [hx]
          exact (ih.expandP op op' (hg op (by simp)) hE).1
        · exact ih.exlistP rest rest' (fun o ho => hg o (by simp [ho])) hL x hx

theorem step_exmembers (cfg : Configt) (fuel : Nat) (ih : C9P cfg fuel) :
    ∀ src comps ops', is_symbol_member_index src = true →
    wfExpr src = true → (follow src.type).is_struct = true →
    wfComps comps = true →
    expand_members cfg (fuel+1) src comps = .ok ops' → ∀ op ∈ ops', Good op := by
  intro src comps ops' hin hwf hstruct hwfc hok
  rcases comps with _ | ⟨⟨nm, sub⟩, rest⟩
  · rw [expand_members] at hok
    simp only [except_pure_eq] at hok
    injection hok with h
    subst h
    intro x hx
    exact absurd hx (by simp)
  · rw [expand_members] at hok
    rw [wfComps] at hwfc
    simp only [Bool.and_eq_true] at hwfc
    obtain ⟨⟨⟨hc, hm⟩, hwt⟩, hrest⟩ := hwfc
    have hc' : sub.is_code = false := by simpa using hc
    have hm' : sub.is_math_function = false := by simpa using hm
    have hwfn : wfExpr (.mk (.member nm) [src] sub) = true := by
      rw [wfExpr_mk, wfOps, wfOps]
      simp [hwt, hwf]
    have hinn : is_symbol_member_index (.mk (.member nm) [src] sub) = true := by
      unfold is_symbol_member_index
      simp only [Exprt.type_mk]
      rw [if_neg (by simp [hc', hm'])]
      rw [ismi_loop]
      rw [if_pos hstruct]
      exact ismi_loop_of_ismi src hin
    rcases hE : expand_structs_and_arrays cfg fuel (.mk (.member nm) [src] sub)
      with msg | op'
    · rw [hE] at hok
      exact absurd hok (by simp)
    · rw [hE] at hok
      simp only [except_bind_ok] at hok
      rcases hM : expand_members cfg fuel src rest with msg | rest'
      · rw [hM] at hok
        exact absurd hok (by simp)
      · rw [hM] at hok
        simp only [except_bind_ok, except_pure_eq] at hok
        injection hok with h
        subst h
        intro x hx
        rcases List.mem_cons.mp hx with hx | hx
        · rw [hx]
          exact (ih.expandP _ op' (Good.chain _ hinn hwfn) hE).1
        · exact ih.exmembersP src rest rest' hin hwf hstruct hrest hM x hx

theorem step_exelems (cfg : Configt) (hcfg : C9Hyps cfg) (fuel : Nat)
    (ih : C9P cfg fuel) :
    ∀ src sub ctorId l ops', Good src →
    ((src.eid = ctorId ∧ (ctorId = .arrayE ∨ ctorId = .vectorE)) ∨
     (is_symbol_member_index src = true ∧ wfExpr src = true ∧
      sub.is_code = false ∧ sub.is_math_function = false ∧ wfT sub = true ∧
      src.eid ≠ ctorId)) →
    expand_elems cfg (fuel+1) src sub ctorId l = .ok ops' →
    ∀ op ∈ ops', Good op := by
  intro src sub ctorId l ops' hg hd hok
  rcases l with _ | ⟨i, rest⟩
  · rw [expand_elems] at hok
    simp only [except_pure_eq] at hok
    injection hok with h
    subst h
    intro x hx
    exact absurd hx (by simp)
  · rw [expand_elems] at hok
    by_cases hc : src.eid = ctorId
    · rw [if_pos hc] at hok
      rcases hd with ⟨_, hca⟩ | ⟨_, _, _, _, _, hne⟩
      · have hgn : Good (cfg.simplify
            (.mk .indexE [src, .mk (.constant (Int.ofNat i)) [] size_type] sub)) :=
          hcfg.simp_good src i sub hg (by
            rcases hca with h | h
            · rw [h] at hc
              exact Or.inl hc
            · rw [h] at hc
              exact Or.inr hc)
        rcases hE : expand_structs_and_arrays cfg fuel (cfg.simplify
            (.mk .indexE [src, .mk (.constant (Int.ofNat i)) [] size_type] sub))
          with msg | op'
        · rw [hE] at hok
          exact absurd hok (by simp)
        · rw [hE] at hok
          simp only [except_bind_ok] at hok
          rcases hEl : expand_elems cfg fuel src sub ctorId rest with msg | rest'
          · rw [hEl] at hok
            exact absurd hok (by simp)
          · rw [hEl] at hok
            simp only [except_bind_ok, except_pure_eq] at hok
            injection hok with h
            subst h
            intro x hx
            rcases List.mem_cons.mp hx with hx | hx
            · rw [hx]
              exact (ih.expandP _ op' hgn hE).1
            · exact ih.exelemsP src sub ctorId rest rest' hg
                (Or.inl ⟨hc, hca⟩) hEl x hx
      · exact absurd hc hne
    · rw [if_neg hc] at hok
      rcases hd with ⟨heq, _⟩ | ⟨hin, hwf, hsc, hsm, hwt, hne⟩
      · exact absurd heq hc
      · have hwfn : wfExpr
            (.mk .indexE [src, .mk (.constant (Int.ofNat i)) [] size_type] sub) = true := by
          rw [wfExpr_mk, wfOps, wfOps, wfOps]
          simp [hwt, hwf]
          exact ⟨rfl, rfl⟩
        have hinn : is_symbol_member_index
            (.mk .indexE [src, .mk (.constant (Int.ofNat i)) [] size_type] sub) = true := by
          unfold is_symbol_member_index
          simp only [Exprt.type_mk]
          rw [if_neg (by simp [hsc, hsm])]
          rw [ismi_loop]
          exact ismi_loop_of_ismi src hin
        rcases hE : expand_structs_and_arrays cfg fuel
            (.mk .indexE [src, .mk (.constant (Int.ofNat i)) [] size_type] sub)
          with msg | op'
        · rw [hE] at hok
          exact absurd hok (by simp)
        · rw [hE] at hok
          simp only [except_bind_ok] at hok
          rcases hEl : expand_elems cfg fuel src sub ctorId rest with msg | rest'
          · rw [hEl] at hok
            exact absurd hok (by simp)
          · rw [hEl] at hok
            simp only [except_bind_ok, except_pure_eq] at hok
            injection hok with h
            subst h
            intro x hx
            rcases List.mem_cons.mp hx with hx | hx
            · rw [hx]
              exact (ih.expandP _ op' (Good.chain _ hinn hwfn) hE).1
            · exact ih.exelemsP src sub ctorId rest rest' hg
                (Or.inr ⟨hin, hwf, hsc, hsm, hwt, hne⟩) hEl x hx

theorem step_expand (cfg : Configt) (fuel : Nat) (ih : C9P cfg fuel) :
    ∀ src f, Good src → expand_structs_and_arrays cfg (fuel+1) src = .ok f →
    Good f ∧ (f.eid ≠ .structE → f.eid ≠ .arrayE → f.eid ≠ .vectorE → f = src) := by
  intro src f hg hok
  rcases src with ⟨eid0, ops0, ty0⟩
  rw [expand_structs_and_arrays] at hok
  simp only [Exprt.type_mk, Exprt.eid_mk, Exprt.operands_mk, Exprt.withOperands_mk] at hok
  split at hok
  · rename_i comps hty
    have hty2 : ty0 = .structT comps := hty
    subst hty2
    split at hok
    · rename_i heid
      subst heid
      split at hok
      · rename_i hlen
        rcases hL : expand_list cfg fuel ops0 with msg | ops
        · rw [hL] at hok
          exact absurd hok (by simp)
        · rw [hL] at hok
          simp only [except_bind_ok, except_pure_eq] at hok
          injection hok with h
          subst h
          refine ⟨?_, fun hns _ _ => absurd rfl hns⟩
          exact Good.ctor _ _ _ (Or.inl rfl) ⟨rfl, rfl⟩ rfl
            (ih.exlistP ops0 ops (good_ctor_ops hg (Or.inl rfl)) hL)
      · exact absurd hok (by simp)
    · rename_i heid
      have hchain : is_symbol_member_index (.mk eid0 ops0 (.structT comps)) = true ∧
          wfExpr (.mk eid0 ops0 (.structT comps)) = true := by
        cases hg with
        | chain _ h1 h2 => exact ⟨h1, h2⟩
        | ctor _ _ _ heid2 hty2 hmatch2 hops2 =>
            exact absurd (show eid0 = .structE from hmatch2) heid
      rcases hM : expand_members cfg fuel (.mk eid0 ops0 (.structT comps)) comps
        with msg | ops
      · rw [hM] at hok
        exact absurd hok (by simp)
      · rw [hM] at hok
        simp only [except_bind_ok, except_pure_eq] at hok
        injection hok with h
        subst h
        refine ⟨?_, fun hns _ _ => absurd rfl hns⟩
        refine Good.ctor _ _ _ (Or.inl rfl) ⟨rfl, rfl⟩ rfl ?_
        refine ih.exmembersP _ comps ops hchain.1 hchain.2 rfl ?_ hM
        have hwt := wfExpr_type hchain.2
        exact hwt
  · rename_i sub size hty
    have hty2 : ty0 = .arrayT sub size := hty
    subst hty2
    rcases size with m | _ | tag
    · split at hok
      · simp only [numeric_cast_size] at hok
        rcases hE : expand_elems cfg fuel (.mk eid0 ops0 (.arrayT sub (.const m)))
            sub .arrayE (List.range m) with msg | ops
        · rw [hE] at hok
          exact absurd hok (by simp)
        · rw [hE] at hok
          simp only [except_bind_ok, except_pure_eq] at hok
          injection hok with h
          subst h
          refine ⟨?_, fun _ hns _ => absurd rfl hns⟩
          refine Good.ctor _ _ _ (Or.inr (Or.inl rfl)) ⟨rfl, rfl⟩ rfl ?_
          refine ih.exelemsP _ sub .arrayE (List.range m) ops hg ?_ hE
          by_cases he : eid0 = .arrayE
          · exact Or.inl ⟨by simp [he], Or.inl rfl⟩
          · have hchain : is_symbol_member_index
                (.mk eid0 ops0 (.arrayT sub (.const m))) = true ∧
                wfExpr (.mk eid0 ops0 (.arrayT sub (.const m))) = true := by
              cases hg with
              | chain _ h1 h2 => exact ⟨h1, h2⟩
              | ctor _ _ _ heid2 hty2 hmatch2 hops2 =>
                  exact absurd (show eid0 = .arrayE from hmatch2) he
            have hwt := wfExpr_type hchain.2
            rw [Exprt.type_mk, wfT] at hwt
            simp only [Bool.and_eq_true] at hwt
            refine Or.inr ⟨hchain.1, hchain.2, by simpa using hwt.1.1,
              by simpa using hwt.1.2, hwt.2, by simpa using he⟩
      · rename_i hconst
        exact absurd rfl hconst
    · split at hok
      · rename_i hconst
        exact absurd hconst (by decide)
      · simp only [except_pure_eq] at hok
        injection hok with h
        subst h
        exact ⟨hg, fun _ _ _ => rfl⟩
    · split at hok
      · rename_i hconst
        exact absurd hconst (by simp [ArraySizet.is_constant])
      · simp only [except_pure_eq] at hok
        injection hok with h
        subst h
        exact ⟨hg, fun _ _ _ => rfl⟩
  · rename_i sub size hty
    have hty2 : ty0 = .vectorT sub size := hty
    subst hty2
    rcases size with m | _ | tag
    · split at hok
      · rename_i hconst
        exact absurd hconst (by simp [ArraySizet.is_constant])
      · simp only [to_integer_size] at hok
        rcases hE : expand_elems cfg fuel (.mk eid0 ops0 (.vectorT sub (.const m)))
            sub .vectorE (List.range m) with msg | ops
        · rw [hE] at hok
          exact absurd hok (by simp)
        · rw [hE] at hok
          simp only [except_bind_ok, except_pure_eq] at hok
          injection hok with h
          subst h
          refine ⟨?_, fun _ _ hns => absurd rfl hns⟩
          refine Good.ctor _ _ _ (Or.inr (Or.inr rfl)) ⟨rfl, rfl⟩ rfl ?_
          refine ih.exelemsP _ sub .vectorE (List.range m) ops hg ?_ hE
          by_cases he : eid0 = .vectorE
          · exact Or.inl ⟨by simp [he], Or.inr rfl⟩
          · have hchain : is_symbol_member_index
                (.mk eid0 ops0 (.vectorT sub (.const m))) = true ∧
                wfExpr (.mk eid0 ops0 (.vectorT sub (.const m))) = true := by
              cases hg with
              | chain _ h1 h2 => exact ⟨h1, h2⟩
              | ctor _ _ _ heid2 hty2 hmatch2 hops2 =>
                  exact absurd (show eid0 = .vectorE from hmatch2) he
            have hwt := wfExpr_type hchain.2
            rw [Exprt.type_mk, wfT] at hwt
            simp only [Bool.and_eq_true] at hwt
            refine Or.inr ⟨hchain.1, hchain.2, by simpa using hwt.1.1,
              by simpa using hwt.1.2, hwt.2, by simpa using he⟩
    · split at hok
      · exact absurd hok (by simp)
      · rename_i hconst
        exact absurd rfl hconst
    · split at hok
      · exact absurd hok (by simp)
      · rename_i hconst
        exact absurd rfl hconst
  · simp only [except_pure_eq] at hok
    injection hok with h
    subst h
    exact ⟨hg, fun _ _ _ => rfl⟩

theorem unbounded_not_code {t : Typet} (h : is_unbounded_array t = true) :
    t.is_code = false ∧ t.is_math_function = false := by
  cases t <;> first
    | exact ⟨rfl, rfl⟩
    | exact Bool.noConfusion h

theorem ismi_loop_eid (e : Exprt) (h : ismi_loop e = true) :
    (∃ i ssa, e.eid = .symbol i ssa) ∨ (∃ c, e.eid = .member c) ∨
    e.eid = .indexE := by
  rcases e with ⟨eid, ops, ty⟩
  simp only [Exprt.eid_mk]
  by_contra hcon
  push_neg at hcon
  rw [ismi_loop_other eid ops ty hcon.1 hcon.2.1 hcon.2.2] at h
  exact Bool.noConfusion h

theorem step_rsmi (cfg : Configt) (fuel : Nat) (ih : C9P cfg fuel) :
    ∀ s src p, Good src →
    (∀ s', read_symbol_member_index cfg (fuel+1) s src p ≠ .ok (none, s')) ∧
    NoBad (read_symbol_member_index cfg (fuel+1) s src p) := by
  intro s src p hg
  have htyf : (follow src.type).is_code = false ∧
      (follow src.type).is_math_function = false := by
    rcases src with ⟨e, o, t⟩
    exact good_type hg
  rw [read_symbol_member_index]
  rw [if_neg (by simp [htyf.1, htyf.2])]
  by_cases hC : (decide (src.eid = ExprIdt.indexE) &&
      is_unbounded_array (src.operands.getD 0 default).type) = true
  · rw [if_pos hC]
    simp only [Bool.and_eq_true, decide_eq_true_eq] at hC
    obtain ⟨hidx, hub⟩ := hC
    rcases src with ⟨eid0, ops0, ty0⟩
    simp only [Exprt.eid_mk] at hidx
    subst hidx
    have hchain : is_symbol_member_index (.mk .indexE ops0 ty0) = true ∧
        wfExpr (.mk .indexE ops0 ty0) = true := by
      cases hg with
      | chain _ a b => exact ⟨a, b⟩
      | ctor _ _ _ heid _ _ _ => rcases heid with h | h | h <;> exact ExprIdt.noConfusion h
    have hloop := ismi_loop_of_ismi _ hchain.1
    have hwfo : wfOps ops0 = true := by
      have h2 := hchain.2
      rw [wfExpr_mk, Bool.and_eq_true] at h2
      exact h2.2
    rcases ops0 with _ | ⟨arr, rest⟩
    · simp [ismi_loop] at hloop
    · rw [ismi_loop] at hloop
      have hnc := unbounded_not_code (show is_unbounded_array arr.type = true by
        simpa using hub)
      have hgarr : Good arr := by
        refine Good.chain arr ?_ (wfOps_mem hwfo arr (by simp))
        unfold is_symbol_member_index
        rw [if_neg (by simp [hnc.1, hnc.2])]
        exact hloop
      simp only [Exprt.operands_mk, Exprt.type_mk, List.getD_cons_zero]
      rcases hr : read_symbol_member_index cfg fuel s arr p with msg | ⟨ropt, s1⟩
      · have hnb := (ih.rsmiP s arr p hgarr).2
        rw [hr] at hnb
        simp only [except_bind_error]
        exact ⟨fun s' h => by simp at h, noBad_error_cast hnb⟩
      · simp only [except_bind_ok]
        rcases ropt with _ | arrv
        · exact absurd hr ((ih.rsmiP s arr p hgarr).1 s1)
        · simp only [opt_value, except_bind_ok]
          rcases hi : instantiate_rec cfg fuel s1 ((arr :: rest).getD 1 default) p
            with msg | ⟨idxv, s2⟩
          · have hnb := ih.irecP s1 ((arr :: rest).getD 1 default) p (wf_getD hwfo 1)
            rw [hi] at hnb
            simp only [except_bind_error]
            exact ⟨fun s' h => by simp at h, noBad_error_cast hnb⟩
          · simp only [except_bind_ok, except_pure_eq]
            exact ⟨fun s' h => by simp at h, noBad_ok _⟩
  · rw [if_neg hC]
    rcases hEx : expand_structs_and_arrays cfg fuel src with msg | final
    · have hnb := (expand_noBad cfg fuel).1 src
      rw [hEx] at hnb
      simp only [except_bind_error]
      exact ⟨fun s' h => by simp at h, noBad_error_cast hnb⟩
    · simp only [except_bind_ok]
      obtain ⟨hgf, hunch⟩ := ih.expandP src final hg hEx
      by_cases hfe : (final.eid = ExprIdt.structE ∨ final.eid = ExprIdt.arrayE) ∨
          final.eid = ExprIdt.vectorE
      · rw [if_pos (by rcases hfe with (h | h) | h <;> simp [h])]
        have hops : ∀ op ∈ final.operands, Good op := by
          rcases final with ⟨feid, fops, fty⟩
          simp only [Exprt.eid_mk] at hfe
          simp only [Exprt.operands_mk]
          exact good_ctor_ops hgf (or_assoc.mp hfe)
        rcases ho : rsmi_ops cfg fuel s final.operands p with msg | ⟨opsr, s1⟩
        · have hnb := ih.rsmiopsP s final.operands p hops
          rw [ho] at hnb
          simp only [except_bind_error]
          exact ⟨fun s' h => by simp at h, noBad_error_cast hnb⟩
        · simp only [except_bind_ok, except_pure_eq]
          exact ⟨fun s' h => by simp at h, noBad_ok _⟩
      · push_neg at hfe
        obtain ⟨⟨hns, hna⟩, hnv⟩ := hfe
        rw [if_neg (by simp [hns, hna, hnv])]
        have hsame := hunch hns hna hnv
        rw [hsame]
        have hchain : is_symbol_member_index src = true ∧ wfExpr src = true := by
          cases hg with
          | chain _ a b => exact ⟨a, b⟩
          | ctor eidX opsX tyX heidX _ _ _ =>
              rw [hsame] at hns hna hnv
              rcases heidX with h | h | h
              · exact absurd (by simp [h]) hns
              · exact absurd (by simp [h]) hna
              · exact absurd (by simp [h]) hnv
        have hloop := ismi_loop_of_ismi _ hchain.1
        rcases ha : array_theory cfg fuel s src p with msg | ⟨final2, s1⟩
        · have hnb := (ih.artP s src p hchain.2).1
          rw [ha] at hnb
          simp only [except_bind_error]
          exact ⟨fun s' h => by simp at h, noBad_error_cast hnb⟩
        · simp only [except_bind_ok]
          have hsh := (ih.artP s src p hchain.2).2 final2 s1 ha
          rcases hsh with hsame2 | ⟨hcond, hwf2⟩
          · rw [hsame2]
            have heids := ismi_loop_eid src hloop
            have hni : src.eid ≠ ExprIdt.ifE := by
              rcases heids with ⟨i, ssa, h⟩ | ⟨c, h⟩ | h <;> rw [h] <;> simp
            have hnc2 : src.eid ≠ ExprIdt.condE := by
              rcases heids with ⟨i, ssa, h⟩ | ⟨c, h⟩ | h <;> rw [h] <;> simp
            rw [if_neg hni, if_neg hnc2]
            rcases hw : rsmi_suffix_walk cfg fuel s1 src "" p with msg | ⟨wres, s2⟩
            · have hnb := (ih.walkP s1 src "" p hloop hchain.2).1
              rw [hw] at hnb
              simp only [except_bind_error]
              exact ⟨fun s' h => by simp at h, noBad_error_cast hnb⟩
            · simp only [except_bind_ok]
              rcases wres with _ | ⟨ident, sfx⟩
              · exact absurd hw ((ih.walkP s1 src "" p hloop hchain.2).2 s2)
              · refine ⟨fun s' h => ?_, fun h => ?_, fun h => ?_⟩
                all_goals
                  split at h
                all_goals
                  try
                    (rename_i heq2
                     exact Option.noConfusion heq2)
                all_goals
                  split_ifs at h
                all_goals
                  simp at h
          · rw [if_neg (by rw [hcond]; simp)]
            rw [if_pos hcond]
            rcases hi2 : instantiate_rec cfg fuel s1 final2 p with msg | ⟨r, s2⟩
            · have hnb := ih.irecP s1 final2 p hwf2
              rw [hi2] at hnb
              simp only [except_bind_error]
              exact ⟨fun s' h => by simp at h, noBad_error_cast hnb⟩
            · simp only [except_bind_ok, except_pure_eq]
              exact ⟨fun s' h => by simp at h, noBad_ok _⟩

/-- One step of the simultaneous induction: every clause of `C9P` at
`fuel+1` follows from `C9P` at `fuel` together with the collaborator
contracts. -/
theorem c9p_succ (cfg : Configt) (hcfg : C9Hyps cfg) (fuel : Nat)
    (ih : C9P cfg fuel) : C9P cfg (fuel+1) :=
  ⟨step_rsmi cfg fuel ih,
   step_inode cfg fuel ih,
   step_irec cfg fuel ih,
   step_iops cfg fuel ih,
   step_read cfg fuel ih,
   step_deref cfg hcfg fuel ih,
   step_derefops cfg fuel ih,
   step_expand cfg fuel ih,
   step_exlist cfg fuel ih,
   step_exmembers cfg fuel ih,
   step_exelems cfg hcfg fuel ih,
   step_art cfg fuel ih,
   step_walk cfg fuel ih,
   step_rsmiops cfg fuel ih⟩

/-- The simultaneous induction holds at every fuel. -/
theorem c9p_all (cfg : Configt) (hcfg : C9Hyps cfg) : ∀ fuel, C9P cfg fuel
  | 0 => c9p_zero cfg
  | fuel+1 => c9p_succ cfg hcfg fuel (c9p_all cfg hcfg fuel)

/-- A struct type carrying a function-typed member: accepted by the
resolver's entry test, but fatal to decompose. -/
def c9bad_ty : Typet := .structT [("f", .code)]

/-- A never-SSA symbol of that struct type. -/
def c9bad : Exprt := .mk (.symbol "cx" false) [] c9bad_ty

/-- A resolvable scalar auxiliary symbol, used as the constant answer
of the witness collaborators. -/
def c9fallback : Exprt := .mk (.symbol "symex_c9_aux" false) [] (.signedbv 32)

/-- A collaborator instantiation satisfying the contracts of `C9Hyps`:
the simplifier and the two pointer oracles always answer with the
resolvable scalar `c9fallback`, and no zero initializer is offered. -/
def c9cfg : Configt :=
  { simplify := fun _ => c9fallback
    zero_initializer := fun _ => none
    symex_dereference := fun _ => c9fallback
    evaluate_address_of := fun _ => c9fallback
    classify := fun _ => .SHARED }

theorem c9cfg_hyps : C9Hyps c9cfg :=
  ⟨fun _ _ _ _ _ => Good.chain _ rfl rfl, fun _ => rfl, fun _ => rfl⟩

/-- Claim C9 as stated is refuted: this symbol is accepted by
`is_symbol_member_index`, yet resolving it reaches the unchecked
`optionalt::value()` on a recursive no-result, because the decomposer
synthesizes a member access of function type whose recursive
resolution is "not applicable". -/
theorem c9_counterexample :
    is_symbol_member_index c9bad = true ∧
    read_symbol_member_index defaultConfig 4 initState c9bad false =
      .error "optional has no value" := ⟨rfl, rfl⟩

/-- Claim C9 (amended): for every expression accepted by
`is_symbol_member_index` all of whose node types are additionally
well-formed (no function type inside a decomposable composite), and
under the collaborator contracts of `C9Hyps` (the simplifier resolves
a constant index into a decomposed array/vector constructor, the
pointer oracles emit well-formed expressions),
`read_symbol_member_index` never returns the "not applicable"
no-result at any fuel, and neither it nor `instantiate_node` reaches
the unchecked `optionalt::value()` abort or the
`tmp_symbol_member_index.has_value()` assertion failure.  Without the
well-formedness precondition the claim is false
(`c9_counterexample`). -/
theorem c9_resolver_total (cfg : Configt) (hcfg : C9Hyps cfg) (fuel : Nat)
    (s : Statet) (src : Exprt) (p : Bool)
    (hacc : is_symbol_member_index src = true) (hwf : wfExpr src = true) :
    (∀ s', read_symbol_member_index cfg fuel s src p ≠ .ok (none, s')) ∧
    NoBad (read_symbol_member_index cfg fuel s src p) ∧
    NoBad (instantiate_node cfg fuel s src p) :=
  ⟨((c9p_all cfg hcfg fuel).rsmiP s src p (Good.chain src hacc hwf)).1,
   ((c9p_all cfg hcfg fuel).rsmiP s src p (Good.chain src hacc hwf)).2,
   (c9p_all cfg hcfg fuel).inodeP s src p hwf⟩

/-- Witness for claim C9: the hypotheses hold at the concrete
collaborators `c9cfg` and the concrete accepted scalar symbol `xsym`,
and the conclusion follows by the theorem. -/
theorem c9_witness :
    (C9Hyps c9cfg ∧ is_symbol_member_index xsym = true ∧ wfExpr xsym = true) ∧
    ((∀ s', read_symbol_member_index c9cfg 3 initState xsym false ≠ .ok (none, s')) ∧
     NoBad (read_symbol_member_index c9cfg 3 initState xsym false) ∧
     NoBad (instantiate_node c9cfg 3 initState xsym false)) :=
  ⟨⟨c9cfg_hyps, rfl, rfl⟩,
   c9_resolver_total c9cfg c9cfg_hyps 3 initState xsym false rfl rfl⟩

end PathSymex
